import Mathlib

/-!
Verification of the BETA download governor, scheduler, ABR controller and TCP
download manager of the dash-emulator-different-ABR repository.

The Python sources are embedded shallowly:

* mutable objects become immutable records, with state threading made explicit;
* the aliasing between the governor fields current_segment and pending_segment
  (in the source _stop_download executes pending_segment = current_segment,
  making both names refer to the same SegmentRequest object) is modelled by the
  Pending.aliased constructor, which reads through current_segment;
* wall-clock reads (datetime.datetime.now) become an explicit now parameter;
* Python floats become exact rationals; for every comparison performed by the
  claims the values involved are far enough apart that float rounding cannot
  change the outcome;
* a raised exception becomes a crashed flag carrying the state changes and the
  download-manager calls performed before the raise.
-/

namespace DashSpec

/-- Player state, from the external dash_emulator.models.State enum.  Only
BUFFERING is inspected by the governor (beta.py line 169); the other
constructors stand for the remaining enum members. -/
inductive State where
  | READY
  | BUFFERING
  | END_STATE
deriving DecidableEq

/-- models.py SegmentRequest: index, url (None until TransferStart), and the
first_bytes_received flag (False at construction). -/
structure SegmentRequest where
  index : Nat
  url : Option String
  first_bytes_received : Bool
deriving DecidableEq

/-- The governor field _pending_segment.  In the source it is None, or the very
object held by _current_segment (after _stop_download ran
self._pending_segment = self._current_segment), or a separate object (after a
later SegmentDownloadStart rebound _current_segment).  aliased reads through
current_segment, so source-level mutation of the shared object is reflected.
aliased is only ever created while current_segment is set (see stopDownload),
matching the source where _stop_download dereferences _current_segment. -/
inductive Pending where
  | noPending
  | aliased
  | sep (sr : SegmentRequest)
deriving DecidableEq

/-- State of BETAManagerImpl (beta.py __init__, lines 52-71), including the
constructor parameters panic_buffer_level and safe_buffer_level.  The source
initialises _timeout and _max_timeout to the integer -1; times are rationals
here. -/
structure BetaState where
  panic_buffer_level : ℚ
  safe_buffer_level : ℚ
  bw : Nat
  buffer_level : ℚ
  pstate : Option State
  current_segment : Option SegmentRequest
  pending : Pending
  timeout : ℚ
  max_timeout : ℚ
  dropped_urls : List (Option String)
  dropped_indices : List Nat
deriving DecidableEq

/-- The SegmentRequest that _pending_segment denotes, resolving the aliasing
with _current_segment. -/
def BetaState.pendingSeg (s : BetaState) : Option SegmentRequest :=
  match s.pending with
  | Pending.noPending => none
  | Pending.aliased => s.current_segment
  | Pending.sep sr => some sr

/-- Calls the governor makes on its download manager.  The urls are optional
because the source passes _current_segment.url, which is Optional[str]. -/
inductive DMCall where
  | stop (url : Option String)
  | dropUrl (url : Option String)
  | cancelRead (url : Option String)
deriving DecidableEq

/-- Result of processing one event: the state after the event, the
download-manager calls issued (in order), and whether a Python exception was
raised after those effects. -/
structure StepResult where
  st : BetaState
  calls : List DMCall
  crashed : Bool
deriving DecidableEq

/-- BETAManagerImpl.MIN_REF_RATIO = 0.1 (beta.py line 33). -/
def min_ref_ratio : ℚ := 1 / 10

/-- MockVQThresholdManager.get_threshold (vq_threshold.py lines 13-15):
constant 0.8 for every index. -/
def mockVQ : Nat → ℚ := fun _ => 4 / 5

/-- The guard of _stop_download (beta.py line 203):
pending_segment is None or pending_segment.url != current_segment.url. -/
def stopNeeded (s : BetaState) (cs : SegmentRequest) : Bool :=
  match s.pendingSeg with
  | none => true
  | some p => decide (p.url ≠ cs.url)

/-- BETAManagerImpl._stop_download (beta.py lines 201-205): call
download_manager.stop(current_segment.url) unless a pending segment already
holds that url, then alias pending_segment to current_segment.  A None
current segment crashes (the log f-string dereferences it). -/
def stopDownload (s : BetaState) : StepResult :=
  match s.current_segment with
  | none => ⟨s, [], true⟩
  | some cs =>
    ⟨{ s with pending := Pending.aliased },
     if stopNeeded s cs then [DMCall.stop cs.url] else [], false⟩

/-- timeout_value of the first-byte initialization (beta.py lines 156-159):
(size - length) * 8 / bw, with the ZeroDivisionError handler substituting 10
when bw == 0. -/
def timeoutValue (bw length size : Nat) : ℚ :=
  if bw = 0 then 10 else (((size : ℚ) - (length : ℚ)) * 8) / (bw : ℚ)

/-- Lines 151-199 of beta.py with cs the dereferenced _current_segment:
dropped-index return, first-byte initialization, stall-recovery stop, panic
stop, pre-timeout return, VQ-threshold stop, post-timeout panic stop,
max-timeout stop, default stop.  The source computes datetime.now() twice in
the first-byte branch; a single instant now stands for both. -/
def btLadderSeg (vq : Nat → ℚ) (now : ℚ) (s : BetaState) (cs : SegmentRequest)
    (length : Nat) (url : String) (position : Nat) (size : Nat) : StepResult :=
  if cs.index ∈ s.dropped_indices then ⟨s, [], false⟩
  else if cs.first_bytes_received = false then
    ⟨{ s with current_segment := some { cs with first_bytes_received := true },
              timeout := now + timeoutValue s.bw length size,
              max_timeout := now + timeoutValue s.bw length size * 2 }, [], false⟩
  else if size = 0 then ⟨s, [], true⟩   -- ratio = position / size raises
  else if cs.index ≠ 0 ∧ some url = cs.url ∧ s.pstate = some State.BUFFERING
      ∧ (position : ℚ) / (size : ℚ) > min_ref_ratio then
    stopDownload s
  else if (position : ℚ) / (size : ℚ) > min_ref_ratio
      ∧ s.buffer_level < s.panic_buffer_level then
    stopDownload s
  else if now < s.timeout then ⟨s, [], false⟩
  else if (position : ℚ) / (size : ℚ) > vq cs.index then
    stopDownload s
  else if s.buffer_level < s.panic_buffer_level then
    -- the source splits on ratio < MIN_REF_RATIO but both arms stop
    -- (the drop_and_replace call is commented out, beta.py line 187)
    (if (position : ℚ) / (size : ℚ) < min_ref_ratio then stopDownload s
     else stopDownload s)
  else if now > s.max_timeout ∧ (position : ℚ) / (size : ℚ) < min_ref_ratio then
    stopDownload s
  else
    stopDownload s

/-- Lines 151-199: the part of the ladder that dereferences
_current_segment, crashing when it is None. -/
def btLadderCore (vq : Nat → ℚ) (now : ℚ) (s : BetaState)
    (length : Nat) (url : String) (position : Nat) (size : Nat) : StepResult :=
  match s.current_segment with
  | none => ⟨s, [], true⟩
  | some cs => btLadderSeg vq now s cs length url position size

/-- The decision ladder of BETAManagerImpl._bytes_transferred (beta.py lines
144-199), entered after the pending-segment reconciliation: buffer-healthy
return (line 144), dropped-url return (line 148), then the segment-dependent
branches of btLadderCore. -/
def btLadder (vq : Nat → ℚ) (now : ℚ) (s : BetaState)
    (length : Nat) (url : String) (position : Nat) (size : Nat) : StepResult :=
  if s.buffer_level > s.safe_buffer_level then ⟨s, [], false⟩
  else if some url ∈ s.dropped_urls then ⟨s, [], false⟩
  else btLadderCore vq now s length url position size

/-- Prefixing a step's calls with the cancel_read_url on a cleared pending
segment (beta.py line 139). -/
def withCancel (p : SegmentRequest) (r : StepResult) : StepResult :=
  ⟨r.st, DMCall.cancelRead p.url :: r.calls, r.crashed⟩

/-- BETAManagerImpl._bytes_transferred (beta.py lines 131-199).  First the
pending-segment reconciliation (lines 137-142): a pending segment with a
different url is cancel-read and cleared before the ladder runs; a pending
segment with the same url consumes the event. -/
def bytesTransferred (vq : Nat → ℚ) (now : ℚ) (s : BetaState)
    (length : Nat) (url : String) (position : Nat) (size : Nat) : StepResult :=
  match s.pendingSeg with
  | some p =>
    if some url ≠ p.url then
      withCancel p (btLadder vq now { s with pending := Pending.noPending } length url position size)
    else ⟨s, [], false⟩
  | none => btLadder vq now s length url position size

/-- BETAManagerImpl._segment_download_start (beta.py lines 120-125):
current_segment becomes a fresh SegmentRequest(index, None); the bw == 0 early
return has no further effect.  An aliased pending keeps denoting the old
current segment, so it is frozen into a separate copy. -/
def segmentDownloadStartStep (s : BetaState) (index : Nat) : BetaState :=
  let pending' : Pending :=
    match s.pending, s.current_segment with
    | Pending.aliased, some cs => Pending.sep cs
    | p, _ => p
  { s with current_segment := some ⟨index, none, false⟩, pending := pending' }

/-- BETAManagerImpl._transfer_start (beta.py lines 127-129): sets
current_segment.url, crashing when current_segment is None.  When pending is
aliased the shared object is mutated, which pendingSeg reflects. -/
def transferStartStep (s : BetaState) (url : String) : StepResult :=
  match s.current_segment with
  | none => ⟨s, [], true⟩
  | some cs => ⟨{ s with current_segment := some { cs with url := some url } }, [], false⟩

/-- BETAManagerImpl.drop_and_replace (beta.py lines 207-212): record the
current url and index as dropped, then drop_url and cancel_read_url it.
Reachable only from outside the event pump. -/
def dropAndReplace (s : BetaState) : StepResult :=
  match s.current_segment with
  | none => ⟨s, [], true⟩
  | some cs =>
    ⟨{ s with dropped_urls := s.dropped_urls.insert cs.url,
              dropped_indices := s.dropped_indices.insert cs.index },
     [DMCall.dropUrl cs.url, DMCall.cancelRead cs.url], false⟩

/-- Events on the governor queue (beta/events.py).  SegmentDownloadStart
carries the selections dictionary, unused by the handler. -/
inductive BETAEvent where
  | bandwidthUpdate (bw : Nat)
  | bufferLevelChange (level : ℚ)
  | stateChange (st : State)
  | segmentDownloadStart (index : Nat) (selections : List (Int × Option Int))
  | transferStart (url : String)
  | bytesTransferred (length : Nat) (url : String) (position : Nat) (size : Nat)
  | transferEnd (size : Nat) (url : String)
  | transferCanceled (url : String) (position : Nat) (size : Nat)
  | segmentDownloadComplete (index : Nat)
deriving DecidableEq

/-- BETAManagerImpl._process (beta.py lines 105-118).  TransferEnd,
TransferCancel and SegmentDownloadComplete events match no isinstance branch
and are ignored. -/
def process (vq : Nat → ℚ) (now : ℚ) (s : BetaState) (ev : BETAEvent) : StepResult :=
  match ev with
  | BETAEvent.bandwidthUpdate bw => ⟨{ s with bw := bw }, [], false⟩
  | BETAEvent.bufferLevelChange level => ⟨{ s with buffer_level := level }, [], false⟩
  | BETAEvent.stateChange st => ⟨{ s with pstate := some st }, [], false⟩
  | BETAEvent.segmentDownloadStart index _ => ⟨segmentDownloadStartStep s index, [], false⟩
  | BETAEvent.transferStart url => transferStartStep s url
  | BETAEvent.bytesTransferred length url position size =>
      bytesTransferred vq now s length url position size
  | BETAEvent.transferEnd _ _ => ⟨s, [], false⟩
  | BETAEvent.transferCanceled _ _ _ => ⟨s, [], false⟩
  | BETAEvent.segmentDownloadComplete _ => ⟨s, [], false⟩

/-- Serial processing of a queue trace (BETAManagerImpl.start, lines 100-103).
Each event is tagged with the wall-clock instant at which it is processed.  A
crash stops the pump; the calls issued before the crash are kept. -/
def processTrace (vq : Nat → ℚ) (s : BetaState) :
    List (ℚ × BETAEvent) → StepResult
  | [] => ⟨s, [], false⟩
  | (now, ev) :: rest =>
    let r := process vq now s ev
    if r.crashed then ⟨r.st, r.calls, true⟩
    else
      let r' := processTrace vq r.st rest
      ⟨r'.st, r.calls ++ r'.calls, r'.crashed⟩

/-- Governor state as built by BETAManagerImpl.__init__ (beta.py lines 35-71). -/
def initBeta (panic safe : ℚ) : BetaState :=
  { panic_buffer_level := panic
    safe_buffer_level := safe
    bw := 0
    buffer_level := 0
    pstate := none
    current_segment := none
    pending := Pending.noPending
    timeout := -1
    max_timeout := -1
    dropped_urls := []
    dropped_indices := [] }

/-! ## Association lists standing for Python dicts -/

/-- Lookup in an association list (a Python dict read d[k], as Option). -/
def lookupAssoc {κ α : Type} [DecidableEq κ] : List (κ × α) → κ → Option α
  | [], _ => none
  | (k, v) :: rest, i => if k = i then some v else lookupAssoc rest i

/-- Update of an association list (a Python dict assignment d[k] = v). -/
def updateAssoc {κ α : Type} [DecidableEq κ] : List (κ × α) → κ → α → List (κ × α)
  | [], i, v => [(i, v)]
  | (k, w) :: rest, i, v =>
    if k = i then (i, v) :: rest else (k, w) :: updateAssoc rest i v

/-! ## TCPClientImpl (downloader/tcp/init module) -/

/-- State of TCPClientImpl (tcp module __init__, lines 14-29).  Byte buffers
become lists of byte values; the headers dictionary is reduced to its
CONTENT-LENGTH entry, the only one the client reads; _waiting_urls keeps only
its key set (the events themselves are modelled by the wait outcomes below). -/
structure TCPState where
  completed_urls : List String
  partially_accepted_urls : List String
  cancelled_urls : List String
  content : List (String × List Nat)
  content_length : List (String × Nat)
  waiting_urls : List String
deriving DecidableEq

/-- TCPClientImpl state as built by __init__: every table empty. -/
def initTCP : TCPState :=
  { completed_urls := []
    partially_accepted_urls := []
    cancelled_urls := []
    content := []
    content_length := []
    waiting_urls := [] }

/-- The synchronous bookkeeping of TCPClientImpl.download (lines 65-66):
register a waiting event and an empty byte buffer for the url. -/
def TCPState.downloadReg (s : TCPState) (url : String) : TCPState :=
  { s with waiting_urls := s.waiting_urls.insert url,
           content := updateAssoc s.content url [] }

/-- TCPClientImpl._download_inner receiving the response headers (lines
79-80): store the CONTENT-LENGTH. -/
def TCPState.beginResponse (s : TCPState) (url : String) (size : Nat) : TCPState :=
  { s with content_length := updateAssoc s.content_length url size }

/-- TCPClientImpl._download_inner appending one chunk (lines 81-82).  The
KeyError on a url that was never registered is not modelled; downloadReg
always precedes this step. -/
def TCPState.recvChunk (s : TCPState) (url : String) (chunk : List Nat) : TCPState :=
  match lookupAssoc s.content url with
  | some buf => { s with content := updateAssoc s.content url (buf ++ chunk) }
  | none => s

/-- TCPClientImpl.stop (lines 113-120): cancel the downloading task, add the
url to _partially_accepted_urls, set its waiting event (a KeyError — the
crashed flag — when no waiter was ever registered), and notify listeners.
The url is never put into _cancelled_urls. -/
def TCPState.stop (s : TCPState) (url : String) : TCPState × Bool :=
  ({ s with partially_accepted_urls := s.partially_accepted_urls.insert url },
   decide (url ∉ s.waiting_urls))

/-- TCPClientImpl.drop_url (lines 57-58): simply awaits stop(url). -/
def TCPState.dropUrl (s : TCPState) (url : String) : TCPState × Bool :=
  s.stop url

/-- TCPClientImpl.cancel_read_url (lines 54-55): a no-op. -/
def TCPState.cancelReadUrl (s : TCPState) (_url : String) : TCPState := s

/-- What one call of TCPClientImpl.wait_complete does: returns a value and the
new state, would block on its waiting event, or raises (KeyError on a missing
content or header entry). -/
inductive WaitOutcome where
  | ret (r : Option (List Nat × Nat)) (st : TCPState)
  | blocked
  | crashed
deriving DecidableEq

/-- Lines 48-49 of wait_complete: a completed url is consumed from
_completed_urls. -/
def waitTailState (s : TCPState) (url : String) : TCPState :=
  if url ∈ s.completed_urls then
    { s with completed_urls := s.completed_urls.erase url }
  else s

/-- Lines 44-52 of wait_complete: the code run after the wait (or directly
when the url is already completed): a cancelled url is consumed and yields
None, a completed url is consumed, and the stored prefix and CONTENT-LENGTH
are returned. -/
def waitTail (s : TCPState) (url : String) : WaitOutcome :=
  if url ∈ s.cancelled_urls then
    WaitOutcome.ret none { s with cancelled_urls := s.cancelled_urls.erase url }
  else
    match lookupAssoc (waitTailState s url).content url,
        lookupAssoc (waitTailState s url).content_length url with
    | some buf, some n => WaitOutcome.ret (some (buf, n)) (waitTailState s url)
    | _, _ => WaitOutcome.crashed

/-- TCPClientImpl.wait_complete (lines 31-52), synchronous prefix: a partially
accepted url returns its prefix at once, a cancelled url returns None, an
uncompleted url blocks (waitResume picks it up at wake time), a completed url
falls through to waitTail. -/
def waitComplete (s : TCPState) (url : String) : WaitOutcome :=
  if url ∈ s.partially_accepted_urls then
    match lookupAssoc s.content url, lookupAssoc s.content_length url with
    | some buf, some n => WaitOutcome.ret (some (buf, n)) s
    | _, _ => WaitOutcome.crashed
  else if url ∈ s.cancelled_urls then WaitOutcome.ret none s
  else if url ∉ s.completed_urls then WaitOutcome.blocked
  else waitTail s url

/-- Line 43 of wait_complete: the waiting entry is deleted on wake. -/
def delWaiting (s : TCPState) (url : String) : TCPState :=
  { s with waiting_urls := s.waiting_urls.erase url }

/-- A blocked wait_complete resuming after its event fires (lines 43-52): the
waiting entry is deleted and the tail runs on the state at wake time. -/
def waitResume (s : TCPState) (url : String) : WaitOutcome :=
  waitTail (delWaiting s url) url

/-! ## BetaABRController (abr.py) -/

/-- dash_emulator.models.Representation, the two fields the ABR controller
and scheduler read. -/
structure Representation where
  id : Int
  bandwidth : Int
deriving DecidableEq

/-- dash_emulator.models.AdaptationSet: its id and its representations in
dictionary-value order. -/
structure AdaptationSet where
  id : Int
  representations : List Representation
deriving DecidableEq

/-- State of BetaABRController (abr.py line 37): the cache of
lowest-bitrate representation ids per adaptation set id. -/
structure BetaABRState where
  min_bitrate_representations : List (Int × Option Int)
deriving DecidableEq

/-- The loop of _find_representation_id_of_lowest_bitrate (abr.py lines
60-66): fold over the representations keeping the first strictly smallest
bandwidth seen, starting from (None, None). -/
def findLowestAux : List Representation → Option Int × Option Int → Option Int × Option Int
  | [], acc => acc
  | rep :: rest, acc =>
    match acc.2 with
    | none => findLowestAux rest (some rep.id, some rep.bandwidth)
    | some mbw =>
      if rep.bandwidth < mbw then findLowestAux rest (some rep.id, some rep.bandwidth)
      else findLowestAux rest acc

/-- BetaABRController._find_representation_id_of_lowest_bitrate (abr.py lines
42-69): answer from the cache when present, otherwise scan the
representations and cache the result. -/
def findRepresentationIdOfLowestBitrate (st : BetaABRState) (a : AdaptationSet) :
    Option Int × BetaABRState :=
  match lookupAssoc st.min_bitrate_representations a.id with
  | some v => (v, st)
  | none =>
    let v := (findLowestAux a.representations (none, none)).1
    (v, ⟨updateAssoc st.min_bitrate_representations a.id v⟩)

/-- One iteration of the results loop of update_selection with
choose_lowest=True (abr.py lines 74-75): results[a.id] = lowest id. -/
def uslStep (acc : List (Int × Option Int) × BetaABRState) (a : AdaptationSet) :
    List (Int × Option Int) × BetaABRState :=
  (updateAssoc acc.1 a.id (findRepresentationIdOfLowestBitrate acc.2 a).1,
   (findRepresentationIdOfLowestBitrate acc.2 a).2)

/-- BetaABRController.update_selection with choose_lowest=True (abr.py lines
72-76): results[a.id] = lowest id, for each adaptation set in value order. -/
def updateSelectionLowest (st : BetaABRState) (sets : List AdaptationSet) :
    List (Int × Option Int) × BetaABRState :=
  sets.foldl uslStep ([], st)

/-! ## BETASchedulerImpl (scheduler/scheduler.py) -/

/-- Python l[-n:]: the last n elements (the whole list when shorter). -/
def lastN {α : Type} (n : Nat) (l : List α) : List α := l.drop (l.length - n)

/-- The slope of scipy.stats.linregress over the points (0, ys[0]), (1,
ys[1]), ...: sum((x - xbar) * (y - ybar)) / sum((x - xbar) ^ 2), in exact
rational arithmetic.  For the integer-valued quality lists this file applies
it to, the float computation of the source decides every comparison against
slope_threshold identically. -/
def linregressSlope (ys : List ℚ) : ℚ :=
  let n : ℚ := ys.length
  let xbar : ℚ := (n - 1) / 2
  let ybar : ℚ := ys.sum / n
  let num := (ys.enum.map (fun p => ((p.1 : ℚ) - xbar) * (p.2 - ybar))).sum
  let den := (ys.enum.map (fun p => ((p.1 : ℚ) - xbar) ^ 2)).sum
  num / den

/-- BETASchedulerImpl.slope_estimator (scheduler.py lines 95-101): the
regression slope, the reduction to apply (reduce_QL when the slope exceeds
the threshold, else 0), and the list back. -/
def slope_estimator (q_list : List ℚ) (slope_threshold : ℚ) (reduce_QL : Int) :
    ℚ × Int × List ℚ :=
  let slope := linregressSlope q_list
  if slope > slope_threshold then (slope, reduce_QL, q_list)
  else (slope, 0, q_list)

/-- State of BETASchedulerImpl (scheduler.py lines 62-93).  The diagnostic
lists other than qual_list (selection_before_logic, slope_values, ...) and
the _representation_initialized set only feed reports and initialization
downloads, which the claims do not touch, and are omitted. -/
structure SchedState where
  max_buffer_duration : ℚ
  update_interval : ℚ
  index : Nat
  dropped_index : Option Nat
  current_selections : Option (List (Int × Option Int))
  qual_list : List Int
  num_previous_samples : Nat
  slope_threshold : ℚ
  reduce_QL : Int
  end_flag : Bool
  abr : BetaABRState
deriving DecidableEq

/-- BETASchedulerImpl.__init__: index 0, no dropped index, empty quality
history, num_previous_samples 3, slope_threshold 0.33, reduce_QL 1, and a
BetaABRController with an empty cache. -/
def schedInit (max_buffer_duration update_interval : ℚ) : SchedState :=
  { max_buffer_duration := max_buffer_duration
    update_interval := update_interval
    index := 0
    dropped_index := none
    current_selections := none
    qual_list := []
    num_previous_samples := 3
    slope_threshold := 33 / 100
    reduce_QL := 1
    end_flag := false
    abr := ⟨[]⟩ }

/-- The scheduler events a loop iteration sends its listeners. -/
inductive SchedEvent where
  | downloadStart (index : Nat) (selections : List (Int × Option Int))
  | downloadComplete (index : Nat)
deriving DecidableEq

/-- How one loop iteration ended: slept on a full buffer, returned on
IndexError, re-looped on a dropped result, or advanced past a completed
segment. -/
inductive IterResult where
  | slept
  | ended
  | looped
  | advanced
deriving DecidableEq

/-- Everything one loop iteration reads from its collaborators: the buffer
level, the adaptation sets, the delegated ABR controller's selection (used
when choose_lowest is not forced), whether every selected representation has
a segment at the current index, the wait_complete results, and the segment
duration. -/
structure IterEnv where
  buffer_level : ℚ
  adaptation_sets : List AdaptationSet
  abrNormal : List (Int × Option Int)
  segments_available : Bool
  results : List (Option (List Nat × Nat))
  duration : ℚ
deriving DecidableEq

/-- Lines 117-123 of the loop: choose_lowest=True exactly when _index equals
_dropped_index, in which case the BetaABRController's lowest-bitrate path
runs (threading its cache); otherwise the delegated controller's selection is
used. -/
def schedSelPre (s : SchedState) (env : IterEnv) :
    List (Int × Option Int) × BetaABRState :=
  if s.dropped_index = some s.index then updateSelectionLowest s.abr env.adaptation_sets
  else (env.abrNormal, s.abr)

/-- One iteration of BETASchedulerImpl.loop (scheduler.py lines 107-202).
Order follows the source: buffer check; selection (lines 117-125); the
hard-coded logic=True slope adjustment of selections[0] (lines 130-155),
mutating the very dictionary the listeners then receive; the
on_segment_download_start notifications; the per-representation segment
lookup whose IndexError sets _end (lines 176-180); the wait_complete
results, a None recording _dropped_index and re-looping (lines 185-189);
otherwise on_segment_download_complete and _index += 1 (lines 190-192).
The error outcome is the KeyError of reading selections[0] when absent; a
None value there (an adaptation set with no representations) would poison
qual_list and crash the slope computation iterations later, and is modelled
as an error at once. -/
def schedIter (s : SchedState) (env : IterEnv) :
    Except Unit (SchedState × List SchedEvent × IterResult) :=
  if env.buffer_level > s.max_buffer_duration then Except.ok (s, [], IterResult.slept)
  else
    let selections := (schedSelPre s env).1
    let abr1 := (schedSelPre s env).2
    match lookupAssoc selections 0 with
    | none => Except.error ()
    | some none => Except.error ()
    | some (some v0) =>
      let doLogic := s.qual_list.length > s.num_previous_samples
      let red : Int :=
        if doLogic then
          (slope_estimator
            ((lastN s.num_previous_samples s.qual_list).map (fun q => (q : ℚ)))
            s.slope_threshold s.reduce_QL).2.1
        else 0
      let v1 : Int :=
        if doLogic then (if v0 + red > 6 then 6 else v0 + red) else v0
      let selections1 :=
        if doLogic then updateAssoc selections 0 (some v1) else selections
      let s1 := { s with current_selections := some selections1,
                         qual_list := s.qual_list ++ [v1],
                         abr := abr1 }
      let evStart := SchedEvent.downloadStart s.index selections1
      if env.segments_available = false then
        Except.ok ({ s1 with end_flag := true }, [evStart], IterResult.ended)
      else if env.results.any Option.isNone then
        Except.ok ({ s1 with dropped_index := some s.index }, [evStart], IterResult.looped)
      else
        Except.ok ({ s1 with index := s.index + 1 },
          [evStart, SchedEvent.downloadComplete s.index], IterResult.advanced)

/-- Iterating the scheduler loop over a list of per-iteration environments.
An ended iteration returns (the source's return statement); an error stops
the run losing no events, since the only modelled crash precedes every
notification. -/
def schedRun (s : SchedState) : List IterEnv → (Except Unit SchedState) × List SchedEvent
  | [] => (Except.ok s, [])
  | env :: rest =>
    match schedIter s env with
    | Except.error e => (Except.error e, [])
    | Except.ok (s', evs, res) =>
      if res = IterResult.ended then (Except.ok s', evs)
      else
        let p := schedRun s' rest
        (p.1, evs ++ p.2)

/-- The indices of the on_segment_download_complete notifications in a list
of scheduler events, in order. -/
def completesOf (evs : List SchedEvent) : List Nat :=
  evs.filterMap (fun ev =>
    match ev with
    | SchedEvent.downloadComplete i => some i
    | _ => none)

/-! ## Concrete sample data for witnesses and counterexamples -/

/-- The event trace of spec scenario 2 (panic stop): bandwidth 1_000_000, a
segment of index 1 at url u with size 2_000_000, a first byte event, the
buffer driven to 2, and a second byte event at position 400_000 (ratio 0.2)
one second later. -/
def c1Trace : List (ℚ × BETAEvent) :=
  [ (0, BETAEvent.bandwidthUpdate 1000000),
    (0, BETAEvent.segmentDownloadStart 1 []),
    (0, BETAEvent.transferStart "u"),
    (0, BETAEvent.bytesTransferred 1000 "u" 1000 2000000),
    (0, BETAEvent.bufferLevelChange 2),
    (1, BETAEvent.bytesTransferred 1000 "u" 400000 2000000) ]

/-- A governor state mid-segment: first byte received on url u, buffer at 2
between panic (3) and safe (7.5), no pending segment. -/
def c1WitState : BetaState :=
  { initBeta 3 (15 / 2) with
      bw := 1000000
      buffer_level := 2
      current_segment := some ⟨1, some "u", true⟩
      timeout := 16
      max_timeout := 32 }

/-- A governor state before the first byte of the current segment, with a
healthy-but-not-full buffer. -/
def c4State : BetaState :=
  { initBeta 3 (15 / 2) with
      bw := 8
      buffer_level := 2
      current_segment := some ⟨1, some "u", false⟩ }

/-- A governor state whose buffer is above the safe level. -/
def c5State : BetaState :=
  { initBeta 3 (15 / 2) with
      bw := 1000000
      buffer_level := 10
      current_segment := some ⟨1, some "u", true⟩ }

/-- A trace of byte events that all carry the current segment's url u. -/
def c6Trace : List (ℚ × BETAEvent) :=
  [ (1, BETAEvent.bytesTransferred 1000 "u" 400000 2000000),
    (2, BETAEvent.bytesTransferred 1000 "u" 500000 2000000),
    (3, BETAEvent.bytesTransferred 1000 "u" 600000 2000000) ]

/-- The governor state right after _stop_download on segment A (url a): the
pending segment is the current segment itself.  Buffer 2 sits below the panic
level 3. -/
def c7State : BetaState :=
  { initBeta 3 (15 / 2) with
      bw := 1000000
      buffer_level := 2
      current_segment := some ⟨1, some "a", true⟩
      pending := Pending.aliased
      timeout := 0
      max_timeout := 0 }

/-- A governor state after the scheduler moved on: current segment B (url b)
with a separate pending record for the stopped segment A (url a). -/
def c7SepState : BetaState :=
  { initBeta 3 (15 / 2) with
      bw := 1000000
      buffer_level := 2
      current_segment := some ⟨2, some "b", true⟩
      pending := Pending.sep ⟨1, some "a", true⟩
      timeout := 0
      max_timeout := 0 }

/-- A TCP client mid-download of url u: registered, CONTENT-LENGTH 5, two
bytes received. -/
def c3Base : TCPState :=
  ((initTCP.downloadReg "u").beginResponse "u" 5).recvChunk "u" [1, 2]

/-- c3Base after drop_url(u). -/
def c3Dropped : TCPState := (c3Base.dropUrl "u").1

/-- Whether a wait_complete outcome returned None (observed a drop). -/
def waitReturnedNone (w : WaitOutcome) : Bool :=
  match w with
  | WaitOutcome.ret none _ => true
  | _ => false

/-- Three representations with bandwidths 500, 300, 800: the lowest is id 1. -/
def sampleASet : AdaptationSet :=
  ⟨0, [⟨0, 500⟩, ⟨1, 300⟩, ⟨2, 800⟩]⟩

/-- A scheduler environment whose single wait_complete result is None (the
stream was dropped). -/
def droppedEnv : IterEnv :=
  { buffer_level := 1
    adaptation_sets := [sampleASet]
    abrNormal := [(0, some 4)]
    segments_available := true
    results := [none]
    duration := 4 }

/-- A scheduler environment whose downloads all complete. -/
def okEnv : IterEnv :=
  { buffer_level := 1
    adaptation_sets := [sampleASet]
    abrNormal := [(0, some 4)]
    segments_available := true
    results := [some ([1], 1)]
    duration := 4 }

/-- A scheduler state with four recorded qualities 3, 3, 4, 5: the slope of
the last three is 1, above the threshold 0.33. -/
def c10State : SchedState :=
  { schedInit 10 1 with qual_list := [3, 3, 4, 5] }

/-- The pending segment holds url u (the situation after _stop_download on a
segment with that url). -/
def pendingHolds (s : BetaState) (u : String) : Prop :=
  ∃ p, s.pendingSeg = some p ∧ p.url = some u

/-- The events one completing iteration from the initial scheduler state
emits. -/
def c8Evs : List SchedEvent :=
  [SchedEvent.downloadStart 0 [(0, some 4)], SchedEvent.downloadComplete 0]

/-- The scheduler state after one completing iteration on okEnv. -/
def c8AdvState : SchedState :=
  { schedInit 10 1 with
      index := 1
      current_selections := some [(0, some 4)]
      qual_list := [4] }

/-! ## Helper lemmas about the governor -/

theorem pendingSeg_clear (s : BetaState) :
    ({ s with pending := Pending.noPending } : BetaState).pendingSeg = none := rfl

theorem stopNeeded_of_none (s : BetaState) (cs : SegmentRequest)
    (h : s.pendingSeg = none) : stopNeeded s cs = true := by
  unfold stopNeeded
  simp only [h]

theorem stopNeeded_of_some (s : BetaState) (cs : SegmentRequest) (p : SegmentRequest)
    (h : s.pendingSeg = some p) : stopNeeded s cs = decide (p.url ≠ cs.url) := by
  unfold stopNeeded
  simp only [h]

theorem stopDownload_some (s : BetaState) (cs : SegmentRequest)
    (hcs : s.current_segment = some cs) :
    stopDownload s =
      ⟨{ s with pending := Pending.aliased },
       if stopNeeded s cs then [DMCall.stop cs.url] else [], false⟩ := by
  unfold stopDownload
  simp only [hcs]

theorem bytesTransferred_of_noPending (vq : Nat → ℚ) (now : ℚ) (s : BetaState)
    (length : Nat) (url : String) (position size : Nat)
    (h : s.pendingSeg = none) :
    bytesTransferred vq now s length url position size =
      btLadder vq now s length url position size := by
  unfold bytesTransferred
  simp only [h]

theorem bytesTransferred_of_pending_ne (vq : Nat → ℚ) (now : ℚ) (s : BetaState)
    (length : Nat) (url : String) (position size : Nat) (p : SegmentRequest)
    (h : s.pendingSeg = some p) (hne : some url ≠ p.url) :
    bytesTransferred vq now s length url position size =
      withCancel p
        (btLadder vq now { s with pending := Pending.noPending } length url position size) := by
  unfold bytesTransferred
  simp only [h]
  rw [if_pos hne]

theorem bytesTransferred_of_pending_eq (vq : Nat → ℚ) (now : ℚ) (s : BetaState)
    (length : Nat) (url : String) (position size : Nat) (p : SegmentRequest)
    (h : s.pendingSeg = some p) (heq : p.url = some url) :
    bytesTransferred vq now s length url position size = ⟨s, [], false⟩ := by
  unfold bytesTransferred
  simp only [h]
  rw [if_neg (not_not_intro heq.symm)]

theorem btLadder_healthy (vq : Nat → ℚ) (now : ℚ) (s : BetaState)
    (length : Nat) (url : String) (position size : Nat)
    (hb : s.buffer_level > s.safe_buffer_level) :
    btLadder vq now s length url position size = ⟨s, [], false⟩ := by
  unfold btLadder
  rw [if_pos hb]

theorem btLadder_to_core (vq : Nat → ℚ) (now : ℚ) (s : BetaState)
    (length : Nat) (url : String) (position size : Nat)
    (hb : ¬s.buffer_level > s.safe_buffer_level)
    (hu : some url ∉ s.dropped_urls) :
    btLadder vq now s length url position size =
      btLadderCore vq now s length url position size := by
  unfold btLadder
  rw [if_neg hb, if_neg hu]

theorem btLadderCore_some (vq : Nat → ℚ) (now : ℚ) (s : BetaState)
    (length : Nat) (url : String) (position size : Nat) (cs : SegmentRequest)
    (hcs : s.current_segment = some cs) :
    btLadderCore vq now s length url position size =
      btLadderSeg vq now s cs length url position size := by
  unfold btLadderCore
  simp only [hcs]

theorem btLadder_first_byte (vq : Nat → ℚ) (now : ℚ) (s : BetaState)
    (length : Nat) (url : String) (position size : Nat) (cs : SegmentRequest)
    (hb : ¬s.buffer_level > s.safe_buffer_level)
    (hu : some url ∉ s.dropped_urls)
    (hcs : s.current_segment = some cs)
    (hi : cs.index ∉ s.dropped_indices)
    (hf : cs.first_bytes_received = false) :
    btLadder vq now s length url position size =
      ⟨{ s with current_segment := some { cs with first_bytes_received := true },
                timeout := now + timeoutValue s.bw length size,
                max_timeout := now + timeoutValue s.bw length size * 2 }, [], false⟩ := by
  rw [btLadder_to_core vq now s length url position size hb hu,
    btLadderCore_some vq now s length url position size cs hcs]
  unfold btLadderSeg
  rw [if_neg hi, if_pos hf]

theorem btLadder_panic (vq : Nat → ℚ) (now : ℚ) (s : BetaState)
    (length : Nat) (url : String) (position size : Nat) (cs : SegmentRequest)
    (hb : ¬s.buffer_level > s.safe_buffer_level)
    (hu : some url ∉ s.dropped_urls)
    (hcs : s.current_segment = some cs)
    (hi : cs.index ∉ s.dropped_indices)
    (hf : ¬cs.first_bytes_received = false)
    (hs : ¬size = 0)
    (hstall : ¬(cs.index ≠ 0 ∧ some url = cs.url ∧ s.pstate = some State.BUFFERING
        ∧ (position : ℚ) / (size : ℚ) > min_ref_ratio))
    (hr : (position : ℚ) / (size : ℚ) > min_ref_ratio)
    (hp : s.buffer_level < s.panic_buffer_level) :
    btLadder vq now s length url position size = stopDownload s := by
  rw [btLadder_to_core vq now s length url position size hb hu,
    btLadderCore_some vq now s length url position size cs hcs]
  unfold btLadderSeg
  rw [if_neg hi, if_neg hf, if_neg hs, if_neg hstall, if_pos ⟨hr, hp⟩]

theorem btLadderSeg_shape (vq : Nat → ℚ) (now : ℚ) (s : BetaState) (cs : SegmentRequest)
    (length : Nat) (url : String) (position size : Nat) :
    btLadderSeg vq now s cs length url position size = ⟨s, [], false⟩ ∨
    btLadderSeg vq now s cs length url position size = ⟨s, [], true⟩ ∨
    btLadderSeg vq now s cs length url position size =
      ⟨{ s with current_segment := some { cs with first_bytes_received := true },
                timeout := now + timeoutValue s.bw length size,
                max_timeout := now + timeoutValue s.bw length size * 2 }, [], false⟩ ∨
    btLadderSeg vq now s cs length url position size = stopDownload s := by
  unfold btLadderSeg
  by_cases h1 : cs.index ∈ s.dropped_indices
  · rw [if_pos h1]
    exact Or.inl rfl
  rw [if_neg h1]
  by_cases h2 : cs.first_bytes_received = false
  · rw [if_pos h2]
    exact Or.inr (Or.inr (Or.inl rfl))
  rw [if_neg h2]
  by_cases h3 : size = 0
  · rw [if_pos h3]
    exact Or.inr (Or.inl rfl)
  rw [if_neg h3]
  by_cases h4 : cs.index ≠ 0 ∧ some url = cs.url ∧ s.pstate = some State.BUFFERING
      ∧ (position : ℚ) / (size : ℚ) > min_ref_ratio
  · rw [if_pos h4]
    exact Or.inr (Or.inr (Or.inr rfl))
  rw [if_neg h4]
  by_cases h5 : (position : ℚ) / (size : ℚ) > min_ref_ratio
      ∧ s.buffer_level < s.panic_buffer_level
  · rw [if_pos h5]
    exact Or.inr (Or.inr (Or.inr rfl))
  rw [if_neg h5]
  by_cases h6 : now < s.timeout
  · rw [if_pos h6]
    exact Or.inl rfl
  rw [if_neg h6]
  by_cases h7 : (position : ℚ) / (size : ℚ) > vq cs.index
  · rw [if_pos h7]
    exact Or.inr (Or.inr (Or.inr rfl))
  rw [if_neg h7]
  by_cases h8 : s.buffer_level < s.panic_buffer_level
  · rw [if_pos h8]
    by_cases h9 : (position : ℚ) / (size : ℚ) < min_ref_ratio
    · rw [if_pos h9]
      exact Or.inr (Or.inr (Or.inr rfl))
    · rw [if_neg h9]
      exact Or.inr (Or.inr (Or.inr rfl))
  rw [if_neg h8]
  by_cases h10 : now > s.max_timeout ∧ (position : ℚ) / (size : ℚ) < min_ref_ratio
  · rw [if_pos h10]
    exact Or.inr (Or.inr (Or.inr rfl))
  · rw [if_neg h10]
    exact Or.inr (Or.inr (Or.inr rfl))

theorem btLadder_shape (vq : Nat → ℚ) (now : ℚ) (s : BetaState)
    (length : Nat) (url : String) (position size : Nat) :
    btLadder vq now s length url position size = ⟨s, [], false⟩ ∨
    btLadder vq now s length url position size = ⟨s, [], true⟩ ∨
    (∃ cs, s.current_segment = some cs ∧
      btLadder vq now s length url position size =
        ⟨{ s with current_segment := some { cs with first_bytes_received := true },
                  timeout := now + timeoutValue s.bw length size,
                  max_timeout := now + timeoutValue s.bw length size * 2 }, [], false⟩) ∨
    btLadder vq now s length url position size = stopDownload s := by
  by_cases hb : s.buffer_level > s.safe_buffer_level
  · exact Or.inl (btLadder_healthy vq now s length url position size hb)
  by_cases hu : some url ∈ s.dropped_urls
  · refine Or.inl ?_
    unfold btLadder
    rw [if_neg hb, if_pos hu]
  have hcore := btLadder_to_core vq now s length url position size hb hu
  rcases hcs : s.current_segment with _ | cs
  · refine Or.inr (Or.inl ?_)
    rw [hcore]
    unfold btLadderCore
    simp only [hcs]
  · rw [hcore, btLadderCore_some vq now s length url position size cs hcs]
    rcases btLadderSeg_shape vq now s cs length url position size with h | h | h | h
    · exact Or.inl h
    · exact Or.inr (Or.inl h)
    · exact Or.inr (Or.inr (Or.inl ⟨cs, rfl, h⟩))
    · exact Or.inr (Or.inr (Or.inr h))

/-! ## Claim theorems -/

/-- C5.  Fast path when the buffer is healthy: a BytesTransferred event
processed while buffer_level > safe_buffer_level (and not consumed by the
pending-segment check) returns without stop, drop_url, or cancel_read for
the event's url, and leaves every governor field other than pending_segment
(timeout, max_timeout, current_segment, dropped_urls, dropped_indices, bw,
buffer_level, player state) unchanged. -/
theorem fast_path_buffer_healthy (vq : Nat → ℚ) (now : ℚ) (s : BetaState)
    (length : Nat) (url : String) (position size : Nat)
    (hp : ∀ p, s.pendingSeg = some p → p.url ≠ some url)
    (hb : s.buffer_level > s.safe_buffer_level) :
    ∃ pnd calls,
      bytesTransferred vq now s length url position size =
        ⟨{ s with pending := pnd }, calls, false⟩ ∧
      (∀ u, DMCall.stop u ∉ calls) ∧
      (∀ u, DMCall.dropUrl u ∉ calls) ∧
      DMCall.cancelRead (some url) ∉ calls := by
  cases hps : s.pendingSeg with
  | none =>
    refine ⟨s.pending, [], ?_, by simp, by simp, by simp⟩
    rw [bytesTransferred_of_noPending vq now s length url position size hps,
      btLadder_healthy vq now s length url position size hb]
  | some p =>
    have hne : some url ≠ p.url := fun h => hp p hps h.symm
    refine ⟨Pending.noPending, [DMCall.cancelRead p.url], ?_, ?_, ?_, ?_⟩
    · rw [bytesTransferred_of_pending_ne vq now s length url position size p hps hne,
        btLadder_healthy vq now { s with pending := Pending.noPending } length url position size hb]
      rfl
    · intro u hu
      simp at hu
    · intro u hu
      simp at hu
    · intro hmem
      have : (some url : Option String) = p.url := by
        simpa using hmem
      exact hne this

/-- C5 witness: a healthy-buffer state (buffer 10 above safe 7.5). -/
theorem fast_path_buffer_healthy_witness :
    ∃ pnd calls,
      bytesTransferred mockVQ 0 c5State 1000 "u" 500 1000 =
        ⟨{ c5State with pending := pnd }, calls, false⟩ ∧
      (∀ u, DMCall.stop u ∉ calls) ∧
      (∀ u, DMCall.dropUrl u ∉ calls) ∧
      DMCall.cancelRead (some "u") ∉ calls :=
  fast_path_buffer_healthy mockVQ 0 c5State 1000 "u" 500 1000
    (fun _ h => nomatch h) (by norm_num [c5State, initBeta])

/-- C4.  First-byte initialization: on the first byte event of the current
segment (first_bytes_received false, buffer at or below safe, url and index
not dropped), the governor marks first_bytes_received, installs
timeout = now + t and max_timeout = now + 2t for t = (size - length) * 8 / bw
(10 when bw = 0), and returns without stopping; no division error is raised
(timeoutValue is total, and for size = length, bw > 0 it is 0 — see the
witness). -/
theorem first_byte_initialization (vq : Nat → ℚ) (now : ℚ) (s : BetaState)
    (length : Nat) (url : String) (position size : Nat) (cs : SegmentRequest)
    (hp : ∀ p, s.pendingSeg = some p → p.url ≠ some url)
    (hb : s.buffer_level ≤ s.safe_buffer_level)
    (hu : some url ∉ s.dropped_urls)
    (hcs : s.current_segment = some cs)
    (hi : cs.index ∉ s.dropped_indices)
    (hf : cs.first_bytes_received = false) :
    ∃ s' calls,
      bytesTransferred vq now s length url position size = ⟨s', calls, false⟩ ∧
      s'.current_segment = some { cs with first_bytes_received := true } ∧
      s'.timeout = now + timeoutValue s.bw length size ∧
      s'.max_timeout = now + timeoutValue s.bw length size * 2 ∧
      (s.bw = 0 → timeoutValue s.bw length size = 10) ∧
      (s.bw ≠ 0 →
        timeoutValue s.bw length size = ((size : ℚ) - (length : ℚ)) * 8 / (s.bw : ℚ)) ∧
      (∀ u, DMCall.stop u ∉ calls) ∧
      (∀ u, DMCall.dropUrl u ∉ calls) := by
  have hb' : ¬s.buffer_level > s.safe_buffer_level := not_lt.mpr hb
  cases hps : s.pendingSeg with
  | none =>
    rw [bytesTransferred_of_noPending vq now s length url position size hps,
      btLadder_first_byte vq now s length url position size cs hb' hu hcs hi hf]
    refine ⟨_, [], rfl, rfl, rfl, rfl, ?_, ?_, by simp, by simp⟩
    · intro h
      simp [timeoutValue, h]
    · intro h
      simp [timeoutValue, h]
  | some p =>
    have hne : some url ≠ p.url := fun h => hp p hps h.symm
    rw [bytesTransferred_of_pending_ne vq now s length url position size p hps hne,
      btLadder_first_byte vq now { s with pending := Pending.noPending }
        length url position size cs hb' hu hcs hi hf]
    refine ⟨_, [DMCall.cancelRead p.url], rfl, rfl, rfl, rfl, ?_, ?_, by simp, by simp⟩
    · intro h
      simp [timeoutValue, h]
    · intro h
      simp [timeoutValue, h]

/-- C4 witness: size = length = 100 and bw = 8 install a zero-duration
timeout, and no division error is raised. -/
theorem first_byte_initialization_witness :
    timeoutValue c4State.bw 100 100 = 0 ∧
    ∃ s' calls,
      bytesTransferred mockVQ 5 c4State 100 "u" 100 100 = ⟨s', calls, false⟩ ∧
      s'.current_segment = some { (⟨1, some "u", false⟩ : SegmentRequest) with
        first_bytes_received := true } ∧
      s'.timeout = 5 + timeoutValue c4State.bw 100 100 ∧
      s'.max_timeout = 5 + timeoutValue c4State.bw 100 100 * 2 ∧
      (c4State.bw = 0 → timeoutValue c4State.bw 100 100 = 10) ∧
      (c4State.bw ≠ 0 →
        timeoutValue c4State.bw 100 100 = ((100 : ℚ) - (100 : ℚ)) * 8 / (c4State.bw : ℚ)) ∧
      (∀ u, DMCall.stop u ∉ calls) ∧
      (∀ u, DMCall.dropUrl u ∉ calls) :=
  ⟨by norm_num [c4State, initBeta, timeoutValue],
   first_byte_initialization mockVQ 5 c4State 100 "u" 100 100 ⟨1, some "u", false⟩
     (fun _ h => nomatch h) (by norm_num [c4State, initBeta]) (by simp [c4State, initBeta])
     rfl (by simp [c4State, initBeta]) rfl⟩

/-- C1.  The panic rule: when a BytesTransferred event survives the
pending-segment checks (buffer at or below safe, url and index not dropped,
first byte already received, stall-recovery rule not firing) and
position / size > MIN_REF_RATIO with buffer_level < panic_buffer_level, the
governor stops the current url via _stop_download and returns, independently
of the timeout, VQ-threshold and max-timeout rules; and on the scenario-2
trace (panic 3, safe 7.5, buffer 2, ratio 0.2 after the first byte) its
calls are exactly one download_manager.stop of the segment's url. -/
theorem panic_rule_stops_once :
    (∀ (vq : Nat → ℚ) (now : ℚ) (s : BetaState) (length : Nat) (url : String)
        (position size : Nat) (cs : SegmentRequest),
      (∀ p, s.pendingSeg = some p → p.url ≠ some url) →
      s.buffer_level ≤ s.safe_buffer_level →
      some url ∉ s.dropped_urls →
      s.current_segment = some cs →
      cs.index ∉ s.dropped_indices →
      cs.first_bytes_received = true →
      size ≠ 0 →
      ¬(cs.index ≠ 0 ∧ some url = cs.url ∧ s.pstate = some State.BUFFERING
          ∧ (position : ℚ) / (size : ℚ) > min_ref_ratio) →
      (position : ℚ) / (size : ℚ) > min_ref_ratio →
      s.buffer_level < s.panic_buffer_level →
      bytesTransferred vq now s length url position size =
        ⟨{ s with pending := Pending.aliased },
         (match s.pendingSeg with
          | some p => [DMCall.cancelRead p.url]
          | none => []) ++ [DMCall.stop cs.url], false⟩) ∧
    (processTrace mockVQ (initBeta 3 (15 / 2)) c1Trace).calls = [DMCall.stop (some "u")] ∧
    (processTrace mockVQ (initBeta 3 (15 / 2)) c1Trace).crashed = false := by
  refine ⟨?_, ?_, ?_⟩
  · intro vq now s length url position size cs hp hb hu hcs hi hf hs hstall hr hpanic
    have hb' : ¬s.buffer_level > s.safe_buffer_level := not_lt.mpr hb
    have hf' : ¬cs.first_bytes_received = false := by simp [hf]
    cases hps : s.pendingSeg with
    | none =>
      rw [bytesTransferred_of_noPending vq now s length url position size hps,
        btLadder_panic vq now s length url position size cs hb' hu hcs hi hf' hs hstall hr hpanic,
        stopDownload_some s cs hcs, stopNeeded_of_none s cs hps]
      simp
    | some p =>
      have hne : some url ≠ p.url := fun h => hp p hps h.symm
      rw [bytesTransferred_of_pending_ne vq now s length url position size p hps hne,
        btLadder_panic vq now { s with pending := Pending.noPending }
          length url position size cs hb' hu hcs hi hf' hs hstall hr hpanic,
        stopDownload_some { s with pending := Pending.noPending } cs hcs,
        stopNeeded_of_none { s with pending := Pending.noPending } cs
          (pendingSeg_clear s)]
      simp [withCancel]
  · norm_num [c1Trace, processTrace, process, bytesTransferred, BetaState.pendingSeg,
      btLadder, btLadderCore, btLadderSeg, segmentDownloadStartStep, transferStartStep,
      stopDownload, stopNeeded, timeoutValue, initBeta, min_ref_ratio, withCancel]
  · norm_num [c1Trace, processTrace, process, bytesTransferred, BetaState.pendingSeg,
      btLadder, btLadderCore, btLadderSeg, segmentDownloadStartStep, transferStartStep,
      stopDownload, stopNeeded, timeoutValue, initBeta, min_ref_ratio, withCancel]

/-- C1 witness: a mid-segment state with buffer 2 (panic 3, safe 7.5) and a
byte event at ratio 0.2. -/
theorem panic_rule_stops_once_witness :
    bytesTransferred mockVQ 1 c1WitState 1000 "u" 400000 2000000 =
      ⟨{ c1WitState with pending := Pending.aliased }, [DMCall.stop (some "u")], false⟩ :=
  panic_rule_stops_once.1 mockVQ 1 c1WitState 1000 "u" 400000 2000000 ⟨1, some "u", true⟩
    (fun _ h => nomatch h)
    (by norm_num [c1WitState, initBeta])
    (by simp [c1WitState, initBeta])
    rfl
    (by simp [c1WitState, initBeta])
    rfl
    (by norm_num)
    (fun h => nomatch h.2.2.1)
    (by norm_num [min_ref_ratio])
    (by norm_num [c1WitState, initBeta])

theorem stopDownload_no_drop (s : BetaState) :
    (stopDownload s).st.dropped_urls = s.dropped_urls ∧
    (stopDownload s).st.dropped_indices = s.dropped_indices ∧
    ∀ u, DMCall.dropUrl u ∉ (stopDownload s).calls := by
  rcases h : s.current_segment with _ | cs
  · simp [stopDownload, h]
  · refine ⟨by simp [stopDownload, h], by simp [stopDownload, h], ?_⟩
    intro u
    simp only [stopDownload, h]
    by_cases hsn : stopNeeded s cs <;> simp [hsn]

theorem btLadder_no_drop (vq : Nat → ℚ) (now : ℚ) (s : BetaState)
    (length : Nat) (url : String) (position size : Nat) :
    (btLadder vq now s length url position size).st.dropped_urls = s.dropped_urls ∧
    (btLadder vq now s length url position size).st.dropped_indices = s.dropped_indices ∧
    ∀ u, DMCall.dropUrl u ∉ (btLadder vq now s length url position size).calls := by
  rcases btLadder_shape vq now s length url position size with h | h | ⟨cs, hcs, h⟩ | h
  · rw [h]
    exact ⟨rfl, rfl, by simp⟩
  · rw [h]
    exact ⟨rfl, rfl, by simp⟩
  · rw [h]
    exact ⟨rfl, rfl, by simp⟩
  · rw [h]
    exact stopDownload_no_drop s

theorem process_no_drop (vq : Nat → ℚ) (now : ℚ) (s : BetaState) (ev : BETAEvent) :
    (process vq now s ev).st.dropped_urls = s.dropped_urls ∧
    (process vq now s ev).st.dropped_indices = s.dropped_indices ∧
    ∀ u, DMCall.dropUrl u ∉ (process vq now s ev).calls := by
  cases ev with
  | bytesTransferred length url position size =>
    simp only [process]
    cases hps : s.pendingSeg with
    | none =>
      rw [bytesTransferred_of_noPending vq now s length url position size hps]
      exact btLadder_no_drop vq now s length url position size
    | some p =>
      by_cases hne : some url ≠ p.url
      · rw [bytesTransferred_of_pending_ne vq now s length url position size p hps hne]
        have h := btLadder_no_drop vq now { s with pending := Pending.noPending }
          length url position size
        refine ⟨h.1, h.2.1, ?_⟩
        intro u hu
        rcases List.mem_cons.mp hu with h1 | h2
        · exact nomatch h1
        · exact h.2.2 u h2
      · have heq : p.url = some url := (not_not.mp hne).symm
        rw [bytesTransferred_of_pending_eq vq now s length url position size p hps heq]
        exact ⟨rfl, rfl, by simp⟩
  | segmentDownloadStart index sel =>
    exact ⟨rfl, rfl, by simp [process]⟩
  | transferStart url =>
    simp only [process]
    rcases h : s.current_segment with _ | cs <;> simp [transferStartStep, h]
  | bandwidthUpdate bw => exact ⟨rfl, rfl, by simp [process]⟩
  | bufferLevelChange level => exact ⟨rfl, rfl, by simp [process]⟩
  | stateChange st => exact ⟨rfl, rfl, by simp [process]⟩
  | transferEnd size url => exact ⟨rfl, rfl, by simp [process]⟩
  | transferCanceled url position size => exact ⟨rfl, rfl, by simp [process]⟩
  | segmentDownloadComplete index => exact ⟨rfl, rfl, by simp [process]⟩

theorem processTrace_no_drop (vq : Nat → ℚ) (trace : List (ℚ × BETAEvent)) :
    ∀ s : BetaState,
      (processTrace vq s trace).st.dropped_urls = s.dropped_urls ∧
      (processTrace vq s trace).st.dropped_indices = s.dropped_indices ∧
      ∀ u, DMCall.dropUrl u ∉ (processTrace vq s trace).calls := by
  induction trace with
  | nil => exact fun s => ⟨rfl, rfl, by simp [processTrace]⟩
  | cons hd rest ih =>
    intro s
    obtain ⟨now, ev⟩ := hd
    simp only [processTrace]
    by_cases hc : (process vq now s ev).crashed
    · rw [if_pos hc]
      exact process_no_drop vq now s ev
    · rw [if_neg hc]
      have h1 := process_no_drop vq now s ev
      have h2 := ih (process vq now s ev).st
      refine ⟨h2.1.trans h1.1, h2.2.1.trans h1.2.1, ?_⟩
      intro u hu
      rcases List.mem_append.mp hu with h | h
      · exact h1.2.2 u h
      · exact h2.2.2 u h

/-- C9.  In this revision the governor's event pump never drops a download:
along any processed queue trace starting from empty dropped sets, the
dropped_urls and dropped_indices stay empty and no drop_url call is ever
issued (every terminal branch of the BytesTransferred ladder goes through
_stop_download; dropAndReplace is reachable only by an external caller). -/
theorem governor_never_drops (vq : Nat → ℚ) (s : BetaState) (trace : List (ℚ × BETAEvent))
    (hu : s.dropped_urls = []) (hi : s.dropped_indices = []) :
    (processTrace vq s trace).st.dropped_urls = [] ∧
    (processTrace vq s trace).st.dropped_indices = [] ∧
    ∀ u, DMCall.dropUrl u ∉ (processTrace vq s trace).calls := by
  have h := processTrace_no_drop vq trace s
  exact ⟨h.1.trans hu, h.2.1.trans hi, h.2.2⟩

/-- C9 witness: the scenario-2 trace from the freshly constructed governor. -/
theorem governor_never_drops_witness :
    (processTrace mockVQ (initBeta 3 (15 / 2)) c1Trace).st.dropped_urls = [] ∧
    (processTrace mockVQ (initBeta 3 (15 / 2)) c1Trace).st.dropped_indices = [] ∧
    ∀ u, DMCall.dropUrl u ∉ (processTrace mockVQ (initBeta 3 (15 / 2)) c1Trace).calls :=
  governor_never_drops mockVQ (initBeta 3 (15 / 2)) c1Trace rfl rfl

theorem count_stop_cancel (u : String) (p : SegmentRequest) (l : List DMCall) :
    (DMCall.cancelRead p.url :: l).count (DMCall.stop (some u)) =
      l.count (DMCall.stop (some u)) := by
  simp [List.count_cons]

theorem bt_event_stop_bound (vq : Nat → ℚ) (now : ℚ) (s : BetaState)
    (length : Nat) (u : String) (position size : Nat) (cs : SegmentRequest)
    (hcs : s.current_segment = some cs) (hurl : cs.url = some u) :
    (∃ cs', (bytesTransferred vq now s length u position size).st.current_segment = some cs'
        ∧ cs'.url = some u) ∧
    (pendingHolds s u → bytesTransferred vq now s length u position size = ⟨s, [], false⟩) ∧
    (bytesTransferred vq now s length u position size).calls.count (DMCall.stop (some u)) ≤ 1 ∧
    ((bytesTransferred vq now s length u position size).calls.count (DMCall.stop (some u)) = 1 →
      pendingHolds (bytesTransferred vq now s length u position size).st u) := by
  cases hps : s.pendingSeg with
  | none =>
    have hnp : ¬pendingHolds s u := by
      rintro ⟨p, hp, -⟩
      rw [hps] at hp
      exact nomatch hp
    rw [bytesTransferred_of_noPending vq now s length u position size hps]
    rcases btLadder_shape vq now s length u position size with h | h | ⟨cs₀, hcs₀, h⟩ | h
    · rw [h]
      exact ⟨⟨cs, hcs, hurl⟩, fun hp => absurd hp hnp, by simp, by intro hx; simp at hx⟩
    · rw [h]
      exact ⟨⟨cs, hcs, hurl⟩, fun hp => absurd hp hnp, by simp, by intro hx; simp at hx⟩
    · have hcseq : cs₀ = cs := by
        rw [hcs] at hcs₀
        exact (Option.some.inj hcs₀).symm
      subst hcseq
      rw [h]
      exact ⟨⟨{ cs₀ with first_bytes_received := true }, rfl, hurl⟩,
        fun hp => absurd hp hnp, by simp, by intro hx; simp at hx⟩
    · rw [h, stopDownload_some s cs hcs]
      by_cases hn : stopNeeded s cs
      · rw [if_pos hn]
        refine ⟨⟨cs, hcs, hurl⟩, fun hp => absurd hp hnp, ?_, ?_⟩
        · simp [hurl, List.count_cons]
        · intro _
          exact ⟨cs, hcs, hurl⟩
      · rw [if_neg hn]
        exact ⟨⟨cs, hcs, hurl⟩, fun hp => absurd hp hnp, by simp, by intro hx; simp at hx⟩
  | some p =>
    by_cases hpu : p.url = some u
    · rw [bytesTransferred_of_pending_eq vq now s length u position size p hps hpu]
      exact ⟨⟨cs, hcs, hurl⟩, fun _ => rfl, by simp, by intro hx; simp at hx⟩
    · have hne : some u ≠ p.url := fun hh => hpu hh.symm
      have hnp : ¬pendingHolds s u := by
        rintro ⟨p', hp', hup'⟩
        rw [hps] at hp'
        cases Option.some.inj hp'
        exact hpu hup'
      rw [bytesTransferred_of_pending_ne vq now s length u position size p hps hne]
      rcases btLadder_shape vq now { s with pending := Pending.noPending } length u position size
        with h | h | ⟨cs₀, hcs₀, h⟩ | h
      · rw [h]
        refine ⟨⟨cs, hcs, hurl⟩, fun hp => absurd hp hnp, ?_, ?_⟩
        · simp [withCancel]
        · intro hx
          simp [withCancel] at hx
      · rw [h]
        refine ⟨⟨cs, hcs, hurl⟩, fun hp => absurd hp hnp, ?_, ?_⟩
        · simp [withCancel]
        · intro hx
          simp [withCancel] at hx
      · have hcseq : cs₀ = cs := by
          have hcs' : ({ s with pending := Pending.noPending } : BetaState).current_segment
              = some cs := hcs
          rw [hcs'] at hcs₀
          exact (Option.some.inj hcs₀).symm
        subst hcseq
        rw [h]
        refine ⟨⟨{ cs₀ with first_bytes_received := true }, rfl, hurl⟩,
          fun hp => absurd hp hnp, ?_, ?_⟩
        · simp [withCancel]
        · intro hx
          simp [withCancel] at hx
      · rw [h, stopDownload_some { s with pending := Pending.noPending } cs hcs,
          stopNeeded_of_none { s with pending := Pending.noPending } cs (pendingSeg_clear s)]
        refine ⟨⟨cs, hcs, hurl⟩, fun hp => absurd hp hnp, ?_, ?_⟩
        · simp [withCancel, hurl, List.count_cons]
        · intro _
          exact ⟨cs, hcs, hurl⟩

theorem btTrace_stop_bound (vq : Nat → ℚ) (u : String) :
    ∀ (trace : List (ℚ × BETAEvent)),
      (∀ x ∈ trace, ∃ now length position size,
        x = (now, BETAEvent.bytesTransferred length u position size)) →
      ∀ (s : BetaState) (cs : SegmentRequest),
        s.current_segment = some cs → cs.url = some u →
        (processTrace vq s trace).calls.count (DMCall.stop (some u)) ≤ 1 ∧
        (pendingHolds s u →
          (processTrace vq s trace).calls.count (DMCall.stop (some u)) = 0) := by
  intro trace
  induction trace with
  | nil =>
    intro _ s cs _ _
    exact ⟨by simp [processTrace], fun _ => by simp [processTrace]⟩
  | cons hd rest ih =>
    intro htrace s cs hcs hurl
    obtain ⟨now, length, position, size, rfl⟩ := htrace hd (List.mem_cons_self hd rest)
    have hrest := fun x hx => htrace x (List.mem_cons_of_mem _ hx)
    have hstep : process vq now s (BETAEvent.bytesTransferred length u position size) =
        bytesTransferred vq now s length u position size := rfl
    obtain ⟨⟨cs', hcs', hurl'⟩, hpend_id, hle, heq1⟩ :=
      bt_event_stop_bound vq now s length u position size cs hcs hurl
    have ihr := ih hrest (bytesTransferred vq now s length u position size).st cs' hcs' hurl'
    simp only [processTrace, hstep]
    by_cases hc : (bytesTransferred vq now s length u position size).crashed
    · rw [if_pos hc]
      refine ⟨hle, ?_⟩
      intro hp
      have hid := hpend_id hp
      rw [hid] at hc
      exact nomatch hc
    · rw [if_neg hc]
      rw [List.count_append]
      constructor
      · by_cases hone :
          (bytesTransferred vq now s length u position size).calls.count
            (DMCall.stop (some u)) = 1
        · have hp' := heq1 hone
          have h0 := ihr.2 hp'
          omega
        · have h1 := ihr.1
          omega
      · intro hp
        have hid := hpend_id hp
        have hcalls : (bytesTransferred vq now s length u position size).calls = [] := by
          rw [hid]
        have hst : (bytesTransferred vq now s length u position size).st = s := by
          rw [hid]
        have h0 := ihr.2 (by rw [hst]; exact hp)
        rw [hcalls]
        simpa using h0

/-- C6.  _stop_download is idempotent per url: it invokes
download_manager.stop(current_segment.url) exactly when no pending segment
already holds that url, and always promotes current_segment to
pending_segment; two consecutive _stop_download calls issue at most one
stop, and any sequence of BytesTransferred events carrying one segment's url
produces at most one download_manager.stop for that url. -/
theorem stop_download_idempotent :
    (∀ (s : BetaState) (cs : SegmentRequest), s.current_segment = some cs →
      stopDownload s = ⟨{ s with pending := Pending.aliased },
        if stopNeeded s cs then [DMCall.stop cs.url] else [], false⟩ ∧
      (stopNeeded s cs = true ↔
        s.pendingSeg = none ∨ ∃ p, s.pendingSeg = some p ∧ p.url ≠ cs.url)) ∧
    (∀ (s s₁ : BetaState) (c₁ : List DMCall),
      stopDownload s = ⟨s₁, c₁, false⟩ → stopDownload s₁ = ⟨s₁, [], false⟩) ∧
    (∀ (vq : Nat → ℚ) (u : String) (trace : List (ℚ × BETAEvent))
        (s : BetaState) (cs : SegmentRequest),
      (∀ x ∈ trace, ∃ now length position size,
        x = (now, BETAEvent.bytesTransferred length u position size)) →
      s.current_segment = some cs → cs.url = some u →
      (processTrace vq s trace).calls.count (DMCall.stop (some u)) ≤ 1) := by
  refine ⟨?_, ?_, ?_⟩
  · intro s cs hcs
    refine ⟨stopDownload_some s cs hcs, ?_⟩
    cases hps : s.pendingSeg with
    | none =>
      rw [stopNeeded_of_none s cs hps]
      simp
    | some p =>
      rw [stopNeeded_of_some s cs p hps]
      simp only [decide_eq_true_eq]
      constructor
      · intro h
        exact Or.inr ⟨p, rfl, h⟩
      · rintro (h | ⟨p', hp', hne⟩)
        · exact nomatch h
        · cases Option.some.inj hp'
          exact hne
  · intro s s₁ c₁ hstop
    rcases hcs : s.current_segment with _ | cs
    · rw [stopDownload] at hstop
      simp only [hcs] at hstop
      exact nomatch congrArg StepResult.crashed hstop
    · rw [stopDownload_some s cs hcs] at hstop
      have hs₁ : s₁ = { s with pending := Pending.aliased } :=
        (congrArg StepResult.st hstop).symm
      subst hs₁
      rw [stopDownload_some { s with pending := Pending.aliased } cs hcs,
        stopNeeded_of_some { s with pending := Pending.aliased } cs cs hcs]
      simp
  · intro vq u trace s cs htrace hcs hurl
    exact (btTrace_stop_bound vq u trace htrace s cs hcs hurl).1

/-- C6 witness: the guard equation on a concrete state, idempotence of two
consecutive stops, and the trace bound for three byte events of url u. -/
theorem stop_download_idempotent_witness :
    (stopDownload c1WitState = ⟨{ c1WitState with pending := Pending.aliased },
      if stopNeeded c1WitState ⟨1, some "u", true⟩
      then [DMCall.stop (some "u")] else [], false⟩) ∧
    (stopDownload { c1WitState with pending := Pending.aliased } =
      ⟨{ c1WitState with pending := Pending.aliased }, [], false⟩) ∧
    (processTrace mockVQ c1WitState c6Trace).calls.count (DMCall.stop (some "u")) ≤ 1 :=
  ⟨(stop_download_idempotent.1 c1WitState ⟨1, some "u", true⟩ rfl).1,
   stop_download_idempotent.2.1 c1WitState { c1WitState with pending := Pending.aliased }
     [DMCall.stop (some "u")] rfl,
   stop_download_idempotent.2.2 mockVQ "u" c6Trace c1WitState ⟨1, some "u", true⟩
     (by
       intro x hx
       simp only [c6Trace, List.mem_cons, List.not_mem_nil, or_false] at hx
       rcases hx with rfl | rfl | rfl
       · exact ⟨1, 1000, 400000, 2000000, rfl⟩
       · exact ⟨2, 1000, 500000, 2000000, rfl⟩
       · exact ⟨3, 1000, 600000, 2000000, rfl⟩)
     rfl rfl⟩

theorem btLadder_stop_target (vq : Nat → ℚ) (now : ℚ) (s : BetaState)
    (length : Nat) (url : String) (position size : Nat) (u' : Option String) :
    DMCall.stop u' ∈ (btLadder vq now s length url position size).calls →
    ∃ cs, s.current_segment = some cs ∧ u' = cs.url := by
  rcases btLadder_shape vq now s length url position size with h | h | ⟨cs, hcs, h⟩ | h
  · rw [h]
    intro hmem
    simp at hmem
  · rw [h]
    intro hmem
    simp at hmem
  · rw [h]
    intro hmem
    simp at hmem
  · rw [h]
    rcases hcs : s.current_segment with _ | cs
    · rw [stopDownload]
      simp only [hcs]
      intro hmem
      simp at hmem
    · rw [stopDownload_some s cs hcs]
      by_cases hn : stopNeeded s cs
      · rw [if_pos hn]
        intro hmem
        rcases List.mem_singleton.mp hmem with h'
        exact ⟨cs, rfl, DMCall.stop.inj h'⟩
      · rw [if_neg hn]
        intro hmem
        simp at hmem

/-- C7 counterexample: right after a stop, pending_segment is the current
segment itself (url a); a BytesTransferred for a different url b clears the
pending record, and the panic rule then issues a second
download_manager.stop on a (the pending url), refuting the claim that no
second stop on the pending url is issued. -/
theorem pending_reconciliation_counterexample :
    c7State.pendingSeg = some ⟨1, some "a", true⟩ ∧
    bytesTransferred mockVQ 0 c7State 100 "b" 1 2 =
      ⟨{ c7State with pending := Pending.aliased },
       [DMCall.cancelRead (some "a"), DMCall.stop (some "a")], false⟩ ∧
    DMCall.stop (some "a") ∈ (bytesTransferred mockVQ 0 c7State 100 "b" 1 2).calls := by
  have hne : (some "b" : Option String) ≠ (⟨1, some "a", true⟩ : SegmentRequest).url := by
    decide
  have hladder :
      btLadder mockVQ 0 { c7State with pending := Pending.noPending } 100 "b" 1 2 =
        stopDownload { c7State with pending := Pending.noPending } :=
    btLadder_panic mockVQ 0 { c7State with pending := Pending.noPending } 100 "b" 1 2
      ⟨1, some "a", true⟩
      (by norm_num [c7State, initBeta]) (by simp [c7State, initBeta]) rfl
      (by simp [c7State, initBeta]) (by simp) (by simp)
      (fun h => nomatch h.2.2.1) (by norm_num [min_ref_ratio]) (by norm_num [c7State, initBeta])
  have hmain : bytesTransferred mockVQ 0 c7State 100 "b" 1 2 =
      ⟨{ c7State with pending := Pending.aliased },
       [DMCall.cancelRead (some "a"), DMCall.stop (some "a")], false⟩ := by
    rw [bytesTransferred_of_pending_ne mockVQ 0 c7State 100 "b" 1 2 ⟨1, some "a", true⟩ rfl hne,
      hladder,
      stopDownload_some { c7State with pending := Pending.noPending } ⟨1, some "a", true⟩ rfl,
      stopNeeded_of_none { c7State with pending := Pending.noPending } ⟨1, some "a", true⟩
        (pendingSeg_clear c7State)]
    rfl
  exact ⟨rfl, hmain, by rw [hmain]; simp⟩

/-- C7 (amended).  Pending-stream reconciliation: an event matching the
pending url is ignored entirely; an event with a different url first
cancel-reads the pending url and clears pending_segment, then runs the
decision ladder; and provided current_segment's url differs from the pending
url (as holds once the new segment's SegmentDownloadStart and TransferStart
have been processed), no second stop is issued on the pending url.  (Without
that proviso the ladder may stop the pending url again — see the
counterexample.) -/
theorem pending_reconciliation (vq : Nat → ℚ) (now : ℚ) (s : BetaState)
    (length : Nat) (url : String) (position size : Nat) (p : SegmentRequest)
    (hps : s.pendingSeg = some p) :
    (p.url = some url →
      bytesTransferred vq now s length url position size = ⟨s, [], false⟩) ∧
    (p.url ≠ some url →
      bytesTransferred vq now s length url position size =
        withCancel p (btLadder vq now { s with pending := Pending.noPending }
          length url position size) ∧
      ((∀ cs, s.current_segment = some cs → cs.url ≠ p.url) →
        DMCall.stop p.url ∉ (bytesTransferred vq now s length url position size).calls)) := by
  constructor
  · intro heq
    exact bytesTransferred_of_pending_eq vq now s length url position size p hps heq
  · intro hne'
    have hne : some url ≠ p.url := fun hh => hne' hh.symm
    have hrw := bytesTransferred_of_pending_ne vq now s length url position size p hps hne
    refine ⟨hrw, ?_⟩
    intro hcur hmem
    rw [hrw] at hmem
    rcases List.mem_cons.mp hmem with h1 | h2
    · exact nomatch h1
    · obtain ⟨cs, hcs, hpu⟩ :=
        btLadder_stop_target vq now { s with pending := Pending.noPending }
          length url position size p.url h2
      exact hcur cs hcs hpu.symm

/-- C7 witness: the stopped segment A (url a) as a separate pending record,
current segment B (url b), and a byte event for b: the event cancel-reads a,
clears pending, and issues no second stop on a. -/
theorem pending_reconciliation_witness :
    ((⟨1, some "a", true⟩ : SegmentRequest).url = some "b" →
      bytesTransferred mockVQ 0 c7SepState 100 "b" 1 2 = ⟨c7SepState, [], false⟩) ∧
    ((⟨1, some "a", true⟩ : SegmentRequest).url ≠ some "b" →
      bytesTransferred mockVQ 0 c7SepState 100 "b" 1 2 =
        withCancel ⟨1, some "a", true⟩
          (btLadder mockVQ 0 { c7SepState with pending := Pending.noPending } 100 "b" 1 2) ∧
      ((∀ cs, c7SepState.current_segment = some cs →
          cs.url ≠ (⟨1, some "a", true⟩ : SegmentRequest).url) →
        DMCall.stop (⟨1, some "a", true⟩ : SegmentRequest).url ∉
          (bytesTransferred mockVQ 0 c7SepState 100 "b" 1 2).calls)) :=
  pending_reconciliation mockVQ 0 c7SepState 100 "b" 1 2 ⟨1, some "a", true⟩ rfl

/-- C3 counterexample: url u was mid-download (prefix bytes 1,2 of 5) when
drop_url(u) returned; the subsequent wait_complete returns the prefix, not
None — drop_url on the TCP client is just stop.  An already-blocked waiter
(waitResume) also gets the prefix, and nothing ever enters _cancelled_urls. -/
theorem tcp_drop_url_counterexample :
    (c3Base.dropUrl "u").2 = false ∧
    c3Dropped.cancelled_urls = [] ∧
    waitComplete c3Dropped "u" = WaitOutcome.ret (some ([1, 2], 5)) c3Dropped ∧
    waitReturnedNone (waitComplete c3Dropped "u") = false ∧
    waitReturnedNone (waitResume c3Dropped "u") = false := by
  refine ⟨rfl, rfl, rfl, rfl, rfl⟩

/-- C3 (amended).  For the TCP download manager, drop_url(url) delegates to
stop: it marks the url partially accepted and never touches _cancelled_urls,
so a subsequent wait_complete(url) returns the received prefix with its
CONTENT-LENGTH — and an already-blocked wait_complete, resuming on a url not
in the (always empty) cancelled set, does the same — never None. -/
theorem tcp_drop_url_returns_prefix (s : TCPState) (url : String)
    (buf : List Nat) (n : Nat)
    (hc : lookupAssoc s.content url = some buf)
    (hl : lookupAssoc s.content_length url = some n) :
    (s.dropUrl url).1.cancelled_urls = s.cancelled_urls ∧
    waitComplete (s.dropUrl url).1 url = WaitOutcome.ret (some (buf, n)) (s.dropUrl url).1 ∧
    (url ∉ s.cancelled_urls → url ∉ s.completed_urls →
      waitResume (s.dropUrl url).1 url =
        WaitOutcome.ret (some (buf, n)) (delWaiting (s.dropUrl url).1 url)) := by
  refine ⟨rfl, ?_, ?_⟩
  · unfold waitComplete
    rw [if_pos (show url ∈ (s.dropUrl url).1.partially_accepted_urls from
      List.mem_insert_self url s.partially_accepted_urls)]
    have hc' : lookupAssoc (s.dropUrl url).1.content url = some buf := hc
    have hl' : lookupAssoc (s.dropUrl url).1.content_length url = some n := hl
    rw [hc', hl']
  · intro h1 h2
    unfold waitResume waitTail
    rw [if_neg (show url ∉ (delWaiting (s.dropUrl url).1 url).cancelled_urls from h1)]
    have hts : waitTailState (delWaiting (s.dropUrl url).1 url) url =
        delWaiting (s.dropUrl url).1 url := by
      unfold waitTailState
      rw [if_neg (show url ∉ (delWaiting (s.dropUrl url).1 url).completed_urls from h2)]
    have hc' : lookupAssoc (delWaiting (s.dropUrl url).1 url).content url = some buf := hc
    have hl' : lookupAssoc (delWaiting (s.dropUrl url).1 url).content_length url = some n := hl
    rw [hts, hc', hl']

/-- C3 witness: the amended statement at the concrete mid-download state. -/
theorem tcp_drop_url_returns_prefix_witness :
    (c3Base.dropUrl "u").1.cancelled_urls = c3Base.cancelled_urls ∧
    waitComplete (c3Base.dropUrl "u").1 "u" =
      WaitOutcome.ret (some ([1, 2], 5)) (c3Base.dropUrl "u").1 ∧
    ("u" ∉ c3Base.cancelled_urls → "u" ∉ c3Base.completed_urls →
      waitResume (c3Base.dropUrl "u").1 "u" =
        WaitOutcome.ret (some ([1, 2], 5)) (delWaiting (c3Base.dropUrl "u").1 "u")) :=
  tcp_drop_url_returns_prefix c3Base "u" [1, 2] 5 rfl rfl

theorem schedIter_index (s : SchedState) (env : IterEnv) (s' : SchedState)
    (evs : List SchedEvent) (res : IterResult)
    (h : schedIter s env = Except.ok (s', evs, res)) :
    (completesOf evs = [s.index] ∧ s'.index = s.index + 1 ∧ res = IterResult.advanced) ∨
    (completesOf evs = [] ∧ s'.index = s.index) := by
  unfold schedIter at h
  split at h
  · simp only [Except.ok.injEq, Prod.mk.injEq] at h
    obtain ⟨h1, h2, h3⟩ := h
    right
    subst h1 h2
    exact ⟨rfl, rfl⟩
  · dsimp only [] at h
    split at h
    · exact nomatch h
    · exact nomatch h
    · split at h
      · simp only [Except.ok.injEq, Prod.mk.injEq] at h
        obtain ⟨h1, h2, h3⟩ := h
        right
        subst h1 h2
        exact ⟨by simp [completesOf], rfl⟩
      · split at h
        · simp only [Except.ok.injEq, Prod.mk.injEq] at h
          obtain ⟨h1, h2, h3⟩ := h
          right
          subst h1 h2
          exact ⟨by simp [completesOf], rfl⟩
        · simp only [Except.ok.injEq, Prod.mk.injEq] at h
          obtain ⟨h1, h2, h3⟩ := h
          left
          subst h1 h2 h3
          exact ⟨by simp [completesOf], rfl, rfl⟩

theorem completesOf_append (a b : List SchedEvent) :
    completesOf (a ++ b) = completesOf a ++ completesOf b := by
  simp [completesOf]

theorem schedRun_contiguous (envs : List IterEnv) :
    ∀ s : SchedState,
      completesOf (schedRun s envs).2 =
        List.range' s.index (completesOf (schedRun s envs).2).length ∧
      (∀ s'', (schedRun s envs).1 = Except.ok s'' →
        s''.index = s.index + (completesOf (schedRun s envs).2).length) := by
  induction envs with
  | nil =>
    intro s
    refine ⟨by simp [schedRun, completesOf], ?_⟩
    intro s'' h
    cases Except.ok.inj h
    simp [schedRun, completesOf]
  | cons env rest ih =>
    intro s
    simp only [schedRun]
    cases hiter : schedIter s env with
    | error e =>
      exact ⟨by simp [completesOf], fun s'' h => nomatch h⟩
    | ok t =>
      obtain ⟨s', evs, res⟩ := t
      dsimp only []
      by_cases hres : res = IterResult.ended
      · rw [if_pos hres]
        rcases schedIter_index s env s' evs res hiter with ⟨h1, h2, h3⟩ | ⟨h1, h2⟩
        · rw [h3] at hres
          exact nomatch hres
        · refine ⟨by rw [h1]; rfl, ?_⟩
          intro s'' h
          cases Except.ok.inj h
          rw [h1]
          simpa using h2
      · rw [if_neg hres]
        have hr := ih s'
        rcases schedIter_index s env s' evs res hiter with ⟨h1, h2, h3⟩ | ⟨h1, h2⟩
        · rw [completesOf_append, h1]
          rw [h2] at hr
          refine ⟨?_, ?_⟩
          · rw [hr.1]
            simp [List.range'_succ]
          · intro s'' h
            have := hr.2 s'' h
            simp only [List.length_cons, List.length_append, List.length_nil] at this ⊢
            omega
        · rw [completesOf_append, h1]
          rw [h2] at hr
          refine ⟨?_, ?_⟩
          · simpa using hr.1
          · intro s'' h
            have := hr.2 s'' h
            simpa using this

/-- C8.  Scheduler index contiguity: _index starts at 0; each loop iteration
either completes its segment — emitting exactly one
on_segment_download_complete for the current index and incrementing _index
by 1 — or leaves _index unchanged (sleeps, ends, or re-loops on a dropped
result); hence over any run the completed indices are exactly the contiguous
range starting at the initial index, never skipping. -/
theorem scheduler_index_contiguous :
    (∀ mb ui : ℚ, (schedInit mb ui).index = 0) ∧
    (∀ (s : SchedState) (env : IterEnv) (s' : SchedState) (evs : List SchedEvent)
        (res : IterResult),
      schedIter s env = Except.ok (s', evs, res) →
      (completesOf evs = [s.index] ∧ s'.index = s.index + 1 ∧ res = IterResult.advanced) ∨
      (completesOf evs = [] ∧ s'.index = s.index)) ∧
    (∀ (s : SchedState) (envs : List IterEnv),
      completesOf (schedRun s envs).2 =
        List.range' s.index (completesOf (schedRun s envs).2).length ∧
      (∀ s'', (schedRun s envs).1 = Except.ok s'' →
        s''.index = s.index + (completesOf (schedRun s envs).2).length)) :=
  ⟨fun _ _ => rfl, schedIter_index, fun s envs => schedRun_contiguous envs s⟩

theorem c8_iter_eval :
    schedIter (schedInit 10 1) okEnv = Except.ok (c8AdvState, c8Evs, IterResult.advanced) := by
  have hsel : schedSelPre (schedInit 10 1) okEnv = ([(0, some 4)], ⟨[]⟩) := by
    unfold schedSelPre
    rw [if_neg (by simp [schedInit])]
    rfl
  unfold schedIter
  rw [hsel]
  norm_num [schedInit, okEnv, lookupAssoc, c8AdvState, c8Evs]

/-- C8 witness: the initial index is 0; one completing iteration on okEnv
emits exactly one completion for index 0 and advances to 1; a one-iteration
run yields the contiguous range of completed indices. -/
theorem scheduler_index_contiguous_witness :
    (schedInit 10 1).index = 0 ∧
    ((completesOf c8Evs = [(schedInit 10 1).index] ∧
        c8AdvState.index = (schedInit 10 1).index + 1 ∧
        IterResult.advanced = IterResult.advanced) ∨
      (completesOf c8Evs = [] ∧ c8AdvState.index = (schedInit 10 1).index)) ∧
    completesOf (schedRun (schedInit 10 1) [okEnv]).2 =
      List.range' (schedInit 10 1).index
        (completesOf (schedRun (schedInit 10 1) [okEnv]).2).length :=
  ⟨scheduler_index_contiguous.1 10 1,
   scheduler_index_contiguous.2.1 (schedInit 10 1) okEnv c8AdvState c8Evs
     IterResult.advanced c8_iter_eval,
   (scheduler_index_contiguous.2.2 (schedInit 10 1) [okEnv]).1⟩

theorem lookupAssoc_update_self {κ α : Type} [DecidableEq κ]
    (l : List (κ × α)) (k : κ) (v : α) :
    lookupAssoc (updateAssoc l k v) k = some v := by
  induction l with
  | nil => simp [updateAssoc, lookupAssoc]
  | cons hd tl ih =>
    obtain ⟨k', v'⟩ := hd
    by_cases h : k' = k
    · simp [updateAssoc, lookupAssoc, h]
    · simp [updateAssoc, lookupAssoc, h, ih]

theorem lookupAssoc_update_ne {κ α : Type} [DecidableEq κ]
    (l : List (κ × α)) (k k' : κ) (v : α) (h : k ≠ k') :
    lookupAssoc (updateAssoc l k v) k' = lookupAssoc l k' := by
  induction l with
  | nil => simp [updateAssoc, lookupAssoc, h]
  | cons hd tl ih =>
    obtain ⟨k'', v''⟩ := hd
    by_cases h2 : k'' = k
    · subst h2
      simp [updateAssoc, lookupAssoc, h]
    · by_cases h3 : k'' = k'
      · subst h3
        simp [updateAssoc, lookupAssoc, h2, Ne.symm h]
      · simp [updateAssoc, lookupAssoc, h2, h3, ih]

theorem findLowestAux_spec (reps : List Representation) :
    ∀ i0 b0 : Int, ∃ i b : Int,
      findLowestAux reps (some i0, some b0) = (some i, some b) ∧
      ((i = i0 ∧ b = b0) ∨ ∃ rep ∈ reps, rep.id = i ∧ rep.bandwidth = b) ∧
      b ≤ b0 ∧ ∀ r ∈ reps, b ≤ r.bandwidth := by
  induction reps with
  | nil =>
    intro i0 b0
    exact ⟨i0, b0, rfl, Or.inl ⟨rfl, rfl⟩, le_refl _, by simp⟩
  | cons rep rest ih =>
    intro i0 b0
    by_cases h : rep.bandwidth < b0
    · obtain ⟨i, b, heq, hw, hle, hall⟩ := ih rep.id rep.bandwidth
      refine ⟨i, b, ?_, ?_, ?_, ?_⟩
      · simp only [findLowestAux]
        rw [if_pos h]
        exact heq
      · right
        rcases hw with ⟨hi, hb⟩ | ⟨rep', hm, hi, hb⟩
        · exact ⟨rep, List.mem_cons_self rep rest, hi.symm, hb.symm⟩
        · exact ⟨rep', List.mem_cons_of_mem _ hm, hi, hb⟩
      · exact le_trans hle (le_of_lt h)
      · intro r hr
        rcases List.mem_cons.mp hr with rfl | hr'
        · exact hle
        · exact hall r hr'
    · obtain ⟨i, b, heq, hw, hle, hall⟩ := ih i0 b0
      refine ⟨i, b, ?_, ?_, hle, ?_⟩
      · simp only [findLowestAux]
        rw [if_neg h]
        exact heq
      · rcases hw with hw | ⟨rep', hm, hi, hb⟩
        · exact Or.inl hw
        · exact Or.inr ⟨rep', List.mem_cons_of_mem _ hm, hi, hb⟩
      · intro r hr
        rcases List.mem_cons.mp hr with rfl | hr'
        · exact le_trans hle (not_lt.mp h)
        · exact hall r hr'

theorem findLowest_min (a : AdaptationSet) (hne : a.representations ≠ []) :
    ∃ rep ∈ a.representations,
      (findLowestAux a.representations (none, none)).1 = some rep.id ∧
      ∀ r ∈ a.representations, rep.bandwidth ≤ r.bandwidth := by
  rcases hre : a.representations with _ | ⟨rep, rest⟩
  · exact absurd hre hne
  · have hstep : findLowestAux (rep :: rest) (none, none) =
        findLowestAux rest (some rep.id, some rep.bandwidth) := rfl
    obtain ⟨i, b, heq, hw, hle, hall⟩ := findLowestAux_spec rest rep.id rep.bandwidth
    rcases hw with ⟨hi, hb⟩ | ⟨rep', hm, hi, hb⟩
    · refine ⟨rep, List.mem_cons_self rep rest, ?_, ?_⟩
      · rw [hstep, heq]
        simp [hi]
      · intro r hr
        rcases List.mem_cons.mp hr with rfl | hr'
        · exact le_refl _
        · have := hall r hr'
          rw [hb] at this
          exact this
    · refine ⟨rep', List.mem_cons_of_mem _ hm, ?_, ?_⟩
      · rw [hstep, heq]
        simp [hi]
      · intro r hr
        rcases List.mem_cons.mp hr with rfl | hr'
        · rw [hb]
          exact hle
        · rw [hb]
          exact hall r hr'

theorem usl_fold_preserve (k : Int) :
    ∀ (sets : List AdaptationSet), (∀ a ∈ sets, a.id ≠ k) →
      ∀ acc : List (Int × Option Int) × BetaABRState,
        lookupAssoc (sets.foldl uslStep acc).1 k = lookupAssoc acc.1 k := by
  intro sets
  induction sets with
  | nil =>
    intro _ acc
    rfl
  | cons a rest ih =>
    intro hk acc
    rw [List.foldl_cons]
    rw [ih (fun b hb => hk b (List.mem_cons_of_mem _ hb))]
    exact lookupAssoc_update_ne acc.1 a.id k
      (findRepresentationIdOfLowestBitrate acc.2 a).1 (hk a (List.mem_cons_self a rest))

theorem usl_fold_lookup :
    ∀ (sets : List AdaptationSet) (st : BetaABRState) (res0 : List (Int × Option Int)),
      (sets.map AdaptationSet.id).Nodup →
      (∀ a ∈ sets, lookupAssoc st.min_bitrate_representations a.id = none) →
      ∀ a ∈ sets,
        lookupAssoc (sets.foldl uslStep (res0, st)).1 a.id =
          some ((findLowestAux a.representations (none, none)).1) := by
  intro sets
  induction sets with
  | nil =>
    intro st res0 _ _ a ha
    exact absurd ha (List.not_mem_nil a)
  | cons a0 rest ih =>
    intro st res0 hnd hcache a ha
    have hmiss : lookupAssoc st.min_bitrate_representations a0.id = none :=
      hcache a0 (List.mem_cons_self _ _)
    have hstep : uslStep (res0, st) a0 =
        (updateAssoc res0 a0.id ((findLowestAux a0.representations (none, none)).1),
         ⟨updateAssoc st.min_bitrate_representations a0.id
            ((findLowestAux a0.representations (none, none)).1)⟩) := by
      unfold uslStep findRepresentationIdOfLowestBitrate
      rw [hmiss]
    have hnotin : a0.id ∉ rest.map AdaptationSet.id :=
      (List.nodup_cons.mp (by simpa using hnd)).1
    rw [List.foldl_cons, hstep]
    rcases List.mem_cons.mp ha with rfl | hrest
    · have hne : ∀ b ∈ rest, b.id ≠ a.id := by
        intro b hb heq
        exact hnotin (heq ▸ List.mem_map_of_mem AdaptationSet.id hb)
      rw [usl_fold_preserve a.id rest hne]
      exact lookupAssoc_update_self res0 a.id _
    · have hne0 : a.id ≠ a0.id := by
        intro heq
        exact hnotin (heq ▸ List.mem_map_of_mem AdaptationSet.id hrest)
      refine ih ⟨updateAssoc st.min_bitrate_representations a0.id
          ((findLowestAux a0.representations (none, none)).1)⟩
        (updateAssoc res0 a0.id ((findLowestAux a0.representations (none, none)).1))
        ((List.nodup_cons.mp (by simpa using hnd)).2) ?_ a hrest
      intro b hb
      by_cases hbid : b.id = a0.id
      · -- nodup forbids b.id = a0.id for b in rest
        exact absurd (hbid ▸ List.mem_map_of_mem AdaptationSet.id hb) hnotin
      · rw [show (⟨updateAssoc st.min_bitrate_representations a0.id
            ((findLowestAux a0.representations (none, none)).1)⟩ :
              BetaABRState).min_bitrate_representations =
            updateAssoc st.min_bitrate_representations a0.id
              ((findLowestAux a0.representations (none, none)).1) from rfl]
        rw [lookupAssoc_update_ne _ a0.id b.id _ (fun h => hbid h.symm)]
        exact hcache b (List.mem_cons_of_mem _ hb)

theorem schedIter_dropped (s : SchedState) (env : IterEnv) (s' : SchedState)
    (evs : List SchedEvent) (res : IterResult)
    (hb : ¬env.buffer_level > s.max_buffer_duration)
    (hava : env.segments_available = true)
    (hdrop : env.results.any Option.isNone = true)
    (h : schedIter s env = Except.ok (s', evs, res)) :
    s'.dropped_index = some s.index ∧ s'.index = s.index ∧ res = IterResult.looped := by
  unfold schedIter at h
  rw [if_neg hb] at h
  dsimp only [] at h
  split at h
  · exact nomatch h
  · exact nomatch h
  · rw [if_neg (by simp [hava]), if_pos hdrop] at h
    simp only [Except.ok.injEq, Prod.mk.injEq] at h
    obtain ⟨h1, h2, h3⟩ := h
    subst h1 h3
    exact ⟨rfl, rfl, rfl⟩

/-- C2.  Dropped-replacement protocol: drop_and_replace records
current_segment's url and index in the dropped sets and calls both drop_url
and cancel_read on that url; a scheduler iteration whose wait_complete
results include a None records the index as dropped and re-enters the same
index, whose next selection goes through update_selection with
choose_lowest=True; and that selection assigns every adaptation set (with
any representation at all, under distinct ids and a fresh cache) a
representation of minimum bandwidth. -/
theorem dropped_replacement_protocol :
    (∀ (s : BetaState) (cs : SegmentRequest), s.current_segment = some cs →
      cs.url ∈ (dropAndReplace s).st.dropped_urls ∧
      cs.index ∈ (dropAndReplace s).st.dropped_indices ∧
      DMCall.dropUrl cs.url ∈ (dropAndReplace s).calls ∧
      DMCall.cancelRead cs.url ∈ (dropAndReplace s).calls ∧
      (dropAndReplace s).crashed = false) ∧
    (∀ (s : SchedState) (env : IterEnv) (s' : SchedState) (evs : List SchedEvent)
        (res : IterResult),
      ¬env.buffer_level > s.max_buffer_duration →
      env.segments_available = true →
      env.results.any Option.isNone = true →
      schedIter s env = Except.ok (s', evs, res) →
      s'.dropped_index = some s.index ∧ s'.index = s.index ∧ res = IterResult.looped ∧
      ∀ env₂ : IterEnv, schedSelPre s' env₂ =
        updateSelectionLowest s'.abr env₂.adaptation_sets) ∧
    (∀ (st : BetaABRState) (sets : List AdaptationSet) (a : AdaptationSet),
      (sets.map AdaptationSet.id).Nodup →
      (∀ b ∈ sets, lookupAssoc st.min_bitrate_representations b.id = none) →
      a ∈ sets → a.representations ≠ [] →
      ∃ rep ∈ a.representations,
        lookupAssoc (updateSelectionLowest st sets).1 a.id = some (some rep.id) ∧
        ∀ r ∈ a.representations, rep.bandwidth ≤ r.bandwidth) := by
  refine ⟨?_, ?_, ?_⟩
  · intro s cs hcs
    have hdr : dropAndReplace s =
        ⟨{ s with dropped_urls := s.dropped_urls.insert cs.url,
                  dropped_indices := s.dropped_indices.insert cs.index },
         [DMCall.dropUrl cs.url, DMCall.cancelRead cs.url], false⟩ := by
      unfold dropAndReplace
      rw [hcs]
    rw [hdr]
    exact ⟨List.mem_insert_self _ _, List.mem_insert_self _ _, by simp, by simp, rfl⟩
  · intro s env s' evs res hb hava hdrop h
    obtain ⟨h1, h2, h3⟩ := schedIter_dropped s env s' evs res hb hava hdrop h
    refine ⟨h1, h2, h3, ?_⟩
    intro env₂
    unfold schedSelPre
    rw [if_pos (by rw [h1, h2])]
  · intro st sets a hnd hcache ha hne
    obtain ⟨rep, hm, hid, hmin⟩ := findLowest_min a hne
    refine ⟨rep, hm, ?_, hmin⟩
    have := usl_fold_lookup sets st [] hnd hcache a ha
    rw [show updateSelectionLowest st sets = sets.foldl uslStep ([], st) from rfl]
    rw [this, hid]

/-- C2 witness: drop_and_replace on a live segment, a dropped iteration that
primes choose_lowest for the same index, and the minimum-bandwidth selection
(id 1, bandwidth 300) for the sample adaptation set. -/
theorem dropped_replacement_protocol_witness :
    ((some "u" : Option String) ∈ (dropAndReplace c1WitState).st.dropped_urls ∧
      1 ∈ (dropAndReplace c1WitState).st.dropped_indices ∧
      DMCall.dropUrl (some "u") ∈ (dropAndReplace c1WitState).calls ∧
      DMCall.cancelRead (some "u") ∈ (dropAndReplace c1WitState).calls ∧
      (dropAndReplace c1WitState).crashed = false) ∧
    (∃ rep ∈ sampleASet.representations,
      lookupAssoc (updateSelectionLowest ⟨[]⟩ [sampleASet]).1 sampleASet.id =
        some (some rep.id) ∧
      ∀ r ∈ sampleASet.representations, rep.bandwidth ≤ r.bandwidth) :=
  ⟨dropped_replacement_protocol.1 c1WitState ⟨1, some "u", true⟩ rfl,
   dropped_replacement_protocol.2.2 ⟨[]⟩ [sampleASet] sampleASet (by simp)
     (fun b hb => rfl) (List.mem_singleton.mpr rfl) (by simp [sampleASet])⟩

theorem slope_estimator_red (q : List ℚ) (t : ℚ) (r : Int) :
    (slope_estimator q t r).2.1 = if linregressSlope q > t then r else 0 := by
  unfold slope_estimator
  dsimp only []
  by_cases h : linregressSlope q > t
  · rw [if_pos h, if_pos h]
  · rw [if_neg h, if_neg h]

theorem ite_gt6_eq_min (a : Int) : (if a > 6 then 6 else a) = min a 6 := by
  by_cases h : a > 6
  · rw [if_pos h, min_eq_right (le_of_lt h)]
  · rw [if_neg h, min_eq_left (not_lt.mp h)]

/-- C10.  Hard-coded slope logic: once more than num_previous_samples (3)
qualities are recorded, the selection for adaptation set 0 that the
listeners receive in on_segment_download_start is min(s + r, 6), where s is
the ABR controller's selection and r = 1 exactly when the linear-regression
slope of the last 3 recorded qualities exceeds slope_threshold (0.33); the
emitted dictionary is the governor-visible _current_selections itself, and
the mutated value is what enters qual_list. -/
theorem slope_logic_adjustment (s : SchedState) (env : IterEnv) (q : Int)
    (hb : ¬env.buffer_level > s.max_buffer_duration)
    (hn : s.num_previous_samples = 3)
    (ht : s.slope_threshold = 33 / 100)
    (hr : s.reduce_QL = 1)
    (hlen : s.qual_list.length > 3)
    (hq : lookupAssoc (schedSelPre s env).1 0 = some (some q)) :
    ∃ s' evs res sel',
      schedIter s env = Except.ok (s', evs, res) ∧
      evs.head? = some (SchedEvent.downloadStart s.index sel') ∧
      s'.current_selections = some sel' ∧
      lookupAssoc sel' 0 = some (some (min
        (q + (if linregressSlope ((lastN 3 s.qual_list).map (fun x => (x : ℚ))) > 33 / 100
          then 1 else 0)) 6)) ∧
      s'.qual_list = s.qual_list ++ [min
        (q + (if linregressSlope ((lastN 3 s.qual_list).map (fun x => (x : ℚ))) > 33 / 100
          then 1 else 0)) 6] := by
  have hlen' : s.qual_list.length > s.num_previous_samples := by
    rw [hn]
    exact hlen
  have hred := slope_estimator_red
    ((lastN s.num_previous_samples s.qual_list).map (fun x => (x : ℚ)))
    s.slope_threshold s.reduce_QL
  unfold schedIter
  rw [if_neg hb]
  dsimp only []
  simp only [hq]
  rw [if_pos hlen', if_pos hlen', if_pos hlen', hred, hn, ht, hr, ite_gt6_eq_min]
  by_cases ha : env.segments_available = false
  · rw [if_pos ha]
    refine ⟨_, _, _, _, rfl, rfl, rfl, ?_, rfl⟩
    exact lookupAssoc_update_self _ 0 _
  · rw [if_neg ha]
    by_cases hd : env.results.any Option.isNone = true
    · rw [if_pos hd]
      refine ⟨_, _, _, _, rfl, rfl, rfl, ?_, rfl⟩
      exact lookupAssoc_update_self _ 0 _
    · rw [if_neg hd]
      refine ⟨_, _, _, _, rfl, rfl, rfl, ?_, rfl⟩
      exact lookupAssoc_update_self _ 0 _

theorem c10_sel_eval : schedSelPre c10State okEnv = ([(0, some 4)], ⟨[]⟩) := by
  unfold schedSelPre
  rw [if_neg (by simp [c10State, schedInit])]
  rfl

/-- C10 witness: qualities 3, 3, 4, 5 recorded (slope of the last three is
1 > 0.33), ABR selection 4: the emitted selection for adaptation set 0 is
min(4 + 1, 6) = 5. -/
theorem slope_logic_adjustment_witness :
    (∃ s' evs res sel',
      schedIter c10State okEnv = Except.ok (s', evs, res) ∧
      evs.head? = some (SchedEvent.downloadStart c10State.index sel') ∧
      s'.current_selections = some sel' ∧
      lookupAssoc sel' 0 = some (some (min
        (4 + (if linregressSlope ((lastN 3 c10State.qual_list).map (fun x => (x : ℚ))) > 33 / 100
          then 1 else 0)) 6)) ∧
      s'.qual_list = c10State.qual_list ++ [min
        (4 + (if linregressSlope ((lastN 3 c10State.qual_list).map (fun x => (x : ℚ))) > 33 / 100
          then 1 else 0)) 6]) ∧
    linregressSlope ((lastN 3 c10State.qual_list).map (fun x => (x : ℚ))) = 1 ∧
    min (4 + (1 : Int)) 6 = 5 :=
  ⟨slope_logic_adjustment c10State okEnv 4
     (by norm_num [okEnv, c10State, schedInit])
     rfl rfl rfl
     (by simp [c10State, schedInit])
     (by rw [c10_sel_eval]; rfl),
   by norm_num [linregressSlope, lastN, c10State, schedInit, List.enum],
   by norm_num⟩

end DashSpec
